import Mathlib

/-!
Verification of the Medimate AI service's entity-extraction, normalization
and form-mapping pipeline (services/nlp and models/medical_models.py),
via a shallow embedding of the relevant Python functions over `List Char`
strings, `Nat` offsets and `ℚ` confidences.
-/

set_option maxHeartbeats 1000000

namespace Medimate

/-- A string is modelled as its list of characters. -/
abbrev Str := List Char

/-! ## Entity resolver (`MedicalNLPEngine._normalize_entities`) -/

/-- `MedicalEntity` from `medical_nlp_engine.py`: a labelled span with
a confidence and a normalized form. -/
structure MedEntity where
  text : Str
  label : Str
  start : Nat
  endPos : Nat
  confidence : ℚ
  normalizedForm : Str
  deriving DecidableEq, Repr

/-- The overlap test from `_normalize_entities`:
`entity.start < existing.end and entity.end > existing.start`. -/
def entityOverlap (a b : MedEntity) : Bool :=
  decide (a.start < b.endPos) && decide (a.endPos > b.start)

/-- Two spans are disjoint: `a.end ≤ b.start` or `b.end ≤ a.start`. -/
def spansDisjoint (a b : MedEntity) : Prop :=
  a.endPos ≤ b.start ∨ b.endPos ≤ a.start

instance (a b : MedEntity) : Decidable (spansDisjoint a b) :=
  inferInstanceAs (Decidable (_ ∨ _))

/-- The inner loop of `_normalize_entities`: scan the accepted list for the
first entity overlapping `e`; if found and `e` has strictly higher
confidence, remove it and append `e` at the end (like Python's
`list.remove` followed by `append`), otherwise leave the list unchanged.
Returns `none` when no accepted entity overlaps `e`. -/
def resolveInsert (e : MedEntity) : List MedEntity → Option (List MedEntity)
  | [] => none
  | ex :: rest =>
    if entityOverlap e ex then
      if ex.confidence < e.confidence then some (rest ++ [e]) else some (ex :: rest)
    else
      (resolveInsert e rest).map (ex :: ·)

/-- One iteration of `_normalize_entities`' outer loop: a candidate that
overlaps nothing is appended. -/
def resolveStep (norm : List MedEntity) (e : MedEntity) : List MedEntity :=
  match resolveInsert e norm with
  | none => norm ++ [e]
  | some res => res

/-- `_normalize_entities`: sort candidates by span start ascending
(Python's stable `list.sort(key=lambda x: x.start)`), then run the greedy
overlap resolution. -/
def normalizeEntities (entities : List MedEntity) : List MedEntity :=
  (entities.mergeSort (fun a b => decide (a.start ≤ b.start))).foldl resolveStep []

/-! ## String primitives (ASCII models of the Python `str` operations used
by the abbreviation expanders) -/

/-- Shorthand turning a Lean string literal into its character list. -/
def S (s : String) : Str := s.toList

/-- The whitespace characters Python's `str.split()` splits on. -/
def isWs (c : Char) : Bool :=
  c.toNat = 32 || c.toNat = 9 || c.toNat = 10 || c.toNat = 13 ||
  c.toNat = 11 || c.toNat = 12

/-- ASCII `\w` word characters (letters, digits, underscore), as used by the
`[^\w]` patterns of the expanders. -/
def isWordChar (c : Char) : Bool :=
  (97 ≤ c.toNat && c.toNat ≤ 122) || (65 ≤ c.toNat && c.toNat ≤ 90) ||
  (48 ≤ c.toNat && c.toNat ≤ 57) || c.toNat = 95

def isLowerC (c : Char) : Bool := 97 ≤ c.toNat && c.toNat ≤ 122

def isUpperC (c : Char) : Bool := 65 ≤ c.toNat && c.toNat ≤ 90

def isAlphaC (c : Char) : Bool := isLowerC c || isUpperC c

/-- ASCII lower-casing of one character. -/
def toLowerC (c : Char) : Char :=
  if 65 ≤ c.toNat ∧ c.toNat ≤ 90 then Char.ofNat (c.toNat + 32) else c

/-- ASCII upper-casing of one character. -/
def toUpperC (c : Char) : Char :=
  if 97 ≤ c.toNat ∧ c.toNat ≤ 122 then Char.ofNat (c.toNat - 32) else c

/-- Python `str.lower()`. -/
def lowerStr (s : Str) : Str := s.map toLowerC

/-- Python `str.upper()`. -/
def upperStr (s : Str) : Str := s.map toUpperC

/-- Python `str.title()` (ASCII): the state records whether the previous
character was cased. -/
def titleAux : Bool → Str → Str
  | _, [] => []
  | prev, c :: cs =>
    if isAlphaC c then
      (if prev then toLowerC c else toUpperC c) :: titleAux true cs
    else
      c :: titleAux false cs

def titleStr (s : Str) : Str := titleAux false s

/-- Python `str.isupper()`: at least one cased character and no lowercase
cased character. -/
def pyIsUpper (w : Str) : Bool := w.any isAlphaC && w.all (fun c => !isLowerC c)

/-- Python `str.istitle()` (ASCII): uppercase letters only start cased runs,
lowercase letters only continue them, and at least one cased character. -/
def pyIsTitleAux : Bool → Bool → Str → Bool
  | _, cased, [] => cased
  | prev, cased, c :: cs =>
    if isUpperC c then (if prev then false else pyIsTitleAux true true cs)
    else if isLowerC c then (if prev then pyIsTitleAux true true cs else false)
    else pyIsTitleAux false cased cs

def pyIsTitle (w : Str) : Bool := pyIsTitleAux false false w

/-- Worker for `splitWs`: `acc` holds the current token, reversed. -/
def splitWsAux : Str → Str → List Str
  | [], acc => if acc.isEmpty then [] else [acc.reverse]
  | c :: cs, acc =>
    if isWs c then
      if acc.isEmpty then splitWsAux cs [] else acc.reverse :: splitWsAux cs []
    else splitWsAux cs (c :: acc)

/-- Python `str.split()` with no argument: split on runs of whitespace,
discarding empty tokens. -/
def splitWs (s : Str) : List Str := splitWsAux s []

/-- Python `' '.join(...)`. -/
def joinSpace : List Str → Str
  | [] => []
  | w :: ws =>
    match ws with
    | [] => w
    | _ :: _ => w ++ ' ' :: joinSpace ws

/-- First-occurrence association-list lookup (Python `dict` read). -/
def alookup {β : Type} (k : Str) : List (Str × β) → Option β
  | [] => none
  | (k', v) :: rest => if k' = k then some v else alookup k rest

/-- Python `dict` assignment: overwrite in place if the key exists, else
append (preserving insertion order). -/
def dictInsert {β : Type} (k : Str) (v : β) : List (Str × β) → List (Str × β)
  | [] => [(k, v)]
  | (k', v') :: rest =>
    if k' = k then (k, v) :: rest else (k', v') :: dictInsert k v rest

/-- First index of `needle` as a substring of `hay` (Python `str.find`,
returning `none` instead of `-1`). -/
def strFind (needle : Str) : Str → Option Nat
  | [] => if needle.isPrefixOf [] then some 0 else none
  | c :: t =>
    if needle.isPrefixOf (c :: t) then some 0
    else (strFind needle t).map (· + 1)

/-- Python substring containment `needle in hay`. -/
def strContains (needle hay : Str) : Bool := (strFind needle hay).isSome

/-- Python `str.strip()` (whitespace strip on both ends). -/
def stripWs (s : Str) : Str :=
  ((s.dropWhile isWs).reverse.dropWhile isWs).reverse

/-! ## Abbreviation expanders
(`MedicalNLPEngine._expand_abbreviations` and
`MedicalTerminologyManager.expand_abbreviations`, which share the same
per-token algorithm over their respective tables) -/

/-- The per-token matching key: `re.sub(r'[^\w]', '', word.lower())`. -/
def cleanWord (w : Str) : Str := (w.map toLowerC).filter isWordChar

/-- The punctuation re-appended after an expansion:
`''.join(re.findall(r'[^\w]', word))`. -/
def punctOf (w : Str) : Str := w.filter (fun c => !isWordChar c)

/-- One token of the expansion loop: words whose cleaned form is a known
abbreviation are replaced by their expansion with the original case pattern
(`isupper` → upper, `istitle` → title) and trailing punctuation;
other words pass through unchanged. -/
def expandWord (table : List (Str × Str)) (w : Str) : Str :=
  match alookup (cleanWord w) table with
  | some expansion =>
    let t := if pyIsUpper w then upperStr expansion
             else if pyIsTitle w then titleStr expansion
             else expansion
    t ++ punctOf w
  | none => w

/-- The expanders' shared body: split on whitespace, expand each token,
join with single spaces. -/
def expandAbbreviations (table : List (Str × Str)) (t : Str) : Str :=
  joinSpace ((splitWs t).map (expandWord table))

/-! ## Terminology manager (`medical_terminology.py`) -/

/-- `MedicalCode` of the terminology manager; `system` holds the enum's
`.value` string (e.g. `"ICD-10"`). -/
structure MgrCode where
  code : Str
  system : Str
  description : Str
  category : Str
  synonyms : List Str
  deriving DecidableEq, Repr

/-- `MedicalTerm` of the terminology manager. -/
structure MgrTerm where
  term : Str
  category : Str
  synonyms : List Str
  abbreviations : List Str
  codes : List MgrCode
  confidence : ℚ
  deriving DecidableEq, Repr

/-- The mutable dictionaries of `MedicalTerminologyManager`, as
insertion-ordered association lists. -/
structure TermMgr where
  terms : List (Str × MgrTerm)
  codes : List (Str × List (Str × MgrCode))
  abbreviations : List (Str × Str)
  synonyms : List (Str × Str)
  categories : List (Str × List Str)
  deriving DecidableEq, Repr

def TermMgr.empty : TermMgr := ⟨[], [], [], [], []⟩

/-- `MedicalTerminologyManager.add_term`. -/
def addTerm (mgr : TermMgr) (t : MgrTerm) : TermMgr :=
  let termKey := lowerStr t.term
  { terms := dictInsert termKey t mgr.terms
    synonyms :=
      t.synonyms.foldl (fun d syn => dictInsert (lowerStr syn) termKey d) mgr.synonyms
    abbreviations :=
      t.abbreviations.foldl (fun d ab => dictInsert (lowerStr ab) termKey d) mgr.abbreviations
    categories :=
      dictInsert t.category ((alookup t.category mgr.categories).getD [] ++ [termKey])
        mgr.categories
    codes :=
      t.codes.foldl (fun d c =>
        dictInsert c.system (dictInsert c.code c ((alookup c.system d).getD [])) d)
        mgr.codes }

/-- The terms loaded by `_initialize_basic_terminology` (conditions,
medications, anatomy, in source order). -/
def basicTerms : List MgrTerm :=
  [⟨S "hypertension", S "cardiovascular",
     [S "high blood pressure", S "elevated blood pressure"], [S "htn", S "hbp"],
     [⟨S "I10", S "ICD-10", S "Essential hypertension", S "cardiovascular", []⟩], 1⟩,
   ⟨S "diabetes mellitus", S "endocrine",
     [S "diabetes", S "diabetic condition"], [S "dm", S "diabetes"],
     [⟨S "E11", S "ICD-10", S "Type 2 diabetes mellitus", S "endocrine", []⟩], 1⟩,
   ⟨S "myocardial infarction", S "cardiovascular",
     [S "heart attack", S "cardiac arrest", S "mi"], [S "mi", S "ami"],
     [⟨S "I21", S "ICD-10", S "Acute myocardial infarction", S "cardiovascular", []⟩], 1⟩,
   ⟨S "pneumonia", S "respiratory",
     [S "lung infection", S "respiratory infection"], [S "pna"],
     [⟨S "J18", S "ICD-10", S "Pneumonia, unspecified organism", S "respiratory", []⟩], 1⟩,
   ⟨S "chronic obstructive pulmonary disease", S "respiratory",
     [S "copd", S "chronic bronchitis", S "emphysema"], [S "copd"],
     [⟨S "J44", S "ICD-10", S "Other chronic obstructive pulmonary disease",
       S "respiratory", []⟩], 1⟩,
   ⟨S "metformin", S "medication",
     [S "glucophage", S "fortamet", S "glumetza"], [S "met"], [], 1⟩,
   ⟨S "lisinopril", S "medication", [S "prinivil", S "zestril"], [S "acei"], [], 1⟩,
   ⟨S "atorvastatin", S "medication", [S "lipitor"], [S "statin"], [], 1⟩,
   ⟨S "metoprolol", S "medication",
     [S "lopressor", S "toprol"], [S "bb", S "beta blocker"], [], 1⟩,
   ⟨S "amlodipine", S "medication",
     [S "norvasc"], [S "ccb", S "calcium channel blocker"], [], 1⟩,
   ⟨S "heart", S "anatomy", [S "cardiac", S "cardio"], [S "cardiac"], [], 1⟩,
   ⟨S "lung", S "anatomy", [S "pulmonary", S "respiratory"], [S "pulm", S "resp"], [], 1⟩,
   ⟨S "kidney", S "anatomy", [S "renal", S "nephro"], [S "renal"], [], 1⟩,
   ⟨S "liver", S "anatomy", [S "hepatic", S "hepato"], [S "hepatic"], [], 1⟩]

/-- The manager state after `__init__`. -/
def initialMgr : TermMgr := basicTerms.foldl addTerm TermMgr.empty

/-- `MedicalTerminologyManager.expand_abbreviations` over the loaded table. -/
def mgrExpandAbbreviations (t : Str) : Str :=
  expandAbbreviations initialMgr.abbreviations t

/-- The abbreviation dictionary loaded by
`MedicalNLPEngine._load_medical_abbreviations`. -/
def engineAbbrevs : List (Str × Str) :=
  [(S "bp", S "blood pressure"), (S "hr", S "heart rate"), (S "rr", S "respiratory rate"),
   (S "temp", S "temperature"), (S "o2sat", S "oxygen saturation"),
   (S "bmi", S "body mass index"),
   (S "htn", S "hypertension"), (S "dm", S "diabetes mellitus"),
   (S "mi", S "myocardial infarction"),
   (S "copd", S "chronic obstructive pulmonary disease"),
   (S "chf", S "congestive heart failure"), (S "afib", S "atrial fibrillation"),
   (S "cad", S "coronary artery disease"), (S "ckd", S "chronic kidney disease"),
   (S "asa", S "aspirin"), (S "acei", S "ace inhibitor"),
   (S "arb", S "angiotensin receptor blocker"), (S "ppi", S "proton pump inhibitor"),
   (S "nsaid", S "nonsteroidal anti-inflammatory drug"),
   (S "mg", S "milligrams"), (S "ml", S "milliliters"), (S "mcg", S "micrograms"),
   (S "iu", S "international units"), (S "bid", S "twice daily"),
   (S "tid", S "three times daily"), (S "qid", S "four times daily"),
   (S "prn", S "as needed"),
   (S "qd", S "once daily"), (S "qod", S "every other day"), (S "qhs", S "at bedtime"),
   (S "ac", S "before meals"), (S "pc", S "after meals"),
   (S "po", S "by mouth"), (S "iv", S "intravenous"), (S "im", S "intramuscular"),
   (S "sq", S "subcutaneous"), (S "sl", S "sublingual"), (S "pr", S "per rectum")]

/-- `MedicalNLPEngine._expand_abbreviations` over the engine's table. -/
def engineExpandAbbreviations (t : Str) : Str :=
  expandAbbreviations engineAbbrevs t

/-- **C4.** The terminology manager's abbreviation expander is NOT
idempotent on its loaded table: `"diabetes"` is registered as an
abbreviation of `"diabetes mellitus"`, so a second expansion pass rewrites
the `"diabetes"` token of the first pass's output again, yielding
`"diabetes mellitus mellitus"`. -/
theorem mgr_expand_abbreviations_not_idempotent :
    mgrExpandAbbreviations (S "diabetes") = S "diabetes mellitus" ∧
    mgrExpandAbbreviations (mgrExpandAbbreviations (S "diabetes")) =
      S "diabetes mellitus mellitus" ∧
    mgrExpandAbbreviations (mgrExpandAbbreviations (S "diabetes")) ≠
      mgrExpandAbbreviations (S "diabetes") := by
  refine ⟨by decide, by decide, by decide⟩

/-! ## Structure of `splitWs`/`joinSpace`
(used to settle the whitespace-collapsing behaviour of the expanders) -/

theorem splitWsAux_append_space (b : Str) :
    ∀ (a acc : Str), splitWsAux (a ++ ' ' :: b) acc = splitWsAux a acc ++ splitWsAux b [] := by
  intro a
  induction a with
  | nil =>
    intro acc
    cases acc with
    | nil => simp [splitWsAux, isWs]
    | cons c cs => simp [splitWsAux, isWs]
  | cons c cs ih =>
    intro acc
    by_cases hc : isWs c
    · cases acc with
      | nil => simpa [splitWsAux, hc] using ih []
      | cons d ds => simpa [splitWsAux, hc] using ih []
    · simpa [splitWsAux, hc] using ih (c :: acc)

theorem splitWsAux_word :
    ∀ (w acc : Str), (∀ c ∈ w, isWs c = false) → (acc ≠ [] ∨ w ≠ []) →
      splitWsAux w acc = [acc.reverse ++ w] := by
  intro w
  induction w with
  | nil =>
    intro acc _ hne
    cases acc with
    | nil => simp at hne
    | cons a as => simp [splitWsAux]
  | cons c cs ih =>
    intro acc hnw _
    have hc : isWs c = false := hnw c (List.mem_cons_self _ _)
    have := ih (c :: acc) (fun d hd => hnw d (List.mem_cons_of_mem _ hd))
      (Or.inl (by simp))
    simp only [splitWsAux, hc, Bool.false_eq_true, if_false]
    rw [this]
    simp

theorem splitWs_word {w : Str} (hne : w ≠ []) (hnw : ∀ c ∈ w, isWs c = false) :
    splitWs w = [w] := by
  unfold splitWs
  rw [splitWsAux_word w [] hnw (Or.inr hne)]
  simp

theorem splitWsAux_tokens :
    ∀ (s acc : Str), (∀ c ∈ acc, isWs c = false) →
      ∀ w ∈ splitWsAux s acc, w ≠ [] ∧ ∀ c ∈ w, isWs c = false := by
  intro s
  induction s with
  | nil =>
    intro acc hacc w hw
    cases acc with
    | nil => simp [splitWsAux] at hw
    | cons a as =>
      simp [splitWsAux] at hw
      subst hw
      constructor
      · simp
      · intro c hc
        rw [List.mem_append] at hc
        rcases hc with hc | hc
        · exact hacc c (List.mem_cons_of_mem _ (List.mem_reverse.mp hc))
        · rw [List.mem_singleton] at hc
          subst hc
          exact hacc c (List.mem_cons_self _ _)
  | cons c cs ih =>
    intro acc hacc w hw
    by_cases hc : isWs c
    · cases acc with
      | nil =>
        simp only [splitWsAux, hc, if_true, List.isEmpty_nil] at hw
        exact ih [] (by simp) w hw
      | cons a as =>
        simp only [splitWsAux, hc, if_true, List.isEmpty_cons, Bool.false_eq_true,
          if_false] at hw
        rw [List.mem_cons] at hw
        rcases hw with hw | hw
        · subst hw
          refine ⟨by simp, ?_⟩
          intro d hd
          rw [List.reverse_cons, List.mem_append] at hd
          rcases hd with hd | hd
          · exact hacc d (List.mem_cons_of_mem _ (List.mem_reverse.mp hd))
          · rw [List.mem_singleton] at hd
            subst hd
            exact hacc d (List.mem_cons_self _ _)
        · exact ih [] (by simp) w hw
    · simp only [splitWsAux, hc, Bool.false_eq_true, if_false] at hw
      refine ih (c :: acc) ?_ w hw
      intro d hd
      rw [List.mem_cons] at hd
      rcases hd with hd | hd
      · subst hd; exact Bool.eq_false_iff.mpr hc
      · exact hacc d hd

theorem splitWs_tokens {s : Str} :
    ∀ w ∈ splitWs s, w ≠ [] ∧ ∀ c ∈ w, isWs c = false :=
  splitWsAux_tokens s [] (by simp)

theorem joinSpace_cons_ne (w : Str) (ws : List Str) (h : ws ≠ []) :
    joinSpace (w :: ws) = w ++ ' ' :: joinSpace ws := by
  cases ws with
  | nil => exact absurd rfl h
  | cons y ys => rfl

theorem joinSpace_append :
    ∀ (l₁ l₂ : List Str), l₁ ≠ [] → l₂ ≠ [] →
      joinSpace (l₁ ++ l₂) = joinSpace l₁ ++ ' ' :: joinSpace l₂ := by
  intro l₁
  induction l₁ with
  | nil => intro l₂ h; exact absurd rfl h
  | cons x xs ih =>
    intro l₂ _ h₂
    cases xs with
    | nil => simpa using joinSpace_cons_ne x l₂ h₂
    | cons y ys =>
      rw [List.cons_append, joinSpace_cons_ne x (y :: ys ++ l₂) (by simp),
        joinSpace_cons_ne x (y :: ys) (by simp), ih l₂ (by simp) h₂]
      simp

/-- A string that is a single-space join of nonempty whitespace-free words. -/
def GoodStr (x : Str) : Prop :=
  ∃ ws : List Str, ws ≠ [] ∧ (∀ w ∈ ws, w ≠ [] ∧ ∀ c ∈ w, isWs c = false) ∧
    joinSpace ws = x

theorem goodStr_ne_nil {x : Str} (h : GoodStr x) : x ≠ [] := by
  obtain ⟨ws, hne, hgood, hjoin⟩ := h
  cases ws with
  | nil => exact absurd rfl hne
  | cons w ws' =>
    have hw := (hgood w (List.mem_cons_self _ _)).1
    cases ws' with
    | nil =>
      simp only [joinSpace] at hjoin
      rw [← hjoin]; exact hw
    | cons y ys =>
      rw [joinSpace_cons_ne w (y :: ys) (by simp)] at hjoin
      rw [← hjoin]
      cases w with
      | nil => exact absurd rfl hw
      | cons c cs => simp

theorem splitWs_joinSpace_good :
    ∀ (ws : List Str), (∀ w ∈ ws, w ≠ [] ∧ ∀ c ∈ w, isWs c = false) →
      splitWs (joinSpace ws) = ws := by
  intro ws
  induction ws with
  | nil => intro _; rfl
  | cons w ws' ih =>
    intro hgood
    obtain ⟨hwne, hwnw⟩ := hgood w (List.mem_cons_self _ _)
    cases ws' with
    | nil => simpa [joinSpace] using splitWs_word hwne hwnw
    | cons y ys =>
      rw [joinSpace_cons_ne w (y :: ys) (by simp)]
      unfold splitWs
      rw [splitWsAux_append_space _ w [] ]
      rw [splitWsAux_word w [] hwnw (Or.inr hwne)]
      have := ih (fun u hu => hgood u (List.mem_cons_of_mem _ hu))
      unfold splitWs at this
      rw [this]
      simp

theorem goodStr_join :
    ∀ (l : List Str), l ≠ [] → (∀ x ∈ l, GoodStr x) → GoodStr (joinSpace l) := by
  intro l
  induction l with
  | nil => intro h; exact absurd rfl h
  | cons x xs ih =>
    intro _ hgood
    cases xs with
    | nil => simpa [joinSpace] using hgood x (List.mem_cons_self _ _)
    | cons y ys =>
      obtain ⟨ws₁, hne₁, hg₁, hj₁⟩ := hgood x (List.mem_cons_self _ _)
      obtain ⟨ws₂, hne₂, hg₂, hj₂⟩ :=
        ih (by simp) (fun u hu => hgood u (List.mem_cons_of_mem _ hu))
      refine ⟨ws₁ ++ ws₂, by simp [hne₁], ?_, ?_⟩
      · intro w hw
        rcases List.mem_append.mp hw with hw | hw
        · exact hg₁ w hw
        · exact hg₂ w hw
      · rw [joinSpace_append ws₁ ws₂ hne₁ hne₂, hj₁, hj₂,
          joinSpace_cons_ne x (y :: ys) (by simp)]

theorem isNormalized_of_good {x : Str} (h : GoodStr x) :
    joinSpace (splitWs x) = x := by
  obtain ⟨ws, _, hgood, hjoin⟩ := h
  rw [← hjoin, splitWs_joinSpace_good ws hgood]

theorem toNat_ofNat_valid {n : Nat} (h : n < 55296) : (Char.ofNat n).toNat = n := by
  rw [Char.ofNat, dif_pos (Or.inl h)]
  rfl

theorem isWs_toUpperC (c : Char) : isWs (toUpperC c) = isWs c := by
  by_cases h : 97 ≤ c.toNat ∧ c.toNat ≤ 122
  · have h32 : (toUpperC c).toNat = c.toNat - 32 := by
      unfold toUpperC
      rw [if_pos h]
      exact toNat_ofNat_valid (by omega)
    have h1 : isWs (toUpperC c) = false := by
      unfold isWs
      rw [h32]
      simp only [Bool.or_eq_false_iff, decide_eq_false_iff_not]
      omega
    have h2 : isWs c = false := by
      unfold isWs
      simp only [Bool.or_eq_false_iff, decide_eq_false_iff_not]
      omega
    rw [h1, h2]
  · unfold toUpperC
    rw [if_neg h]

theorem isWs_toLowerC (c : Char) : isWs (toLowerC c) = isWs c := by
  by_cases h : 65 ≤ c.toNat ∧ c.toNat ≤ 90
  · have h32 : (toLowerC c).toNat = c.toNat + 32 := by
      unfold toLowerC
      rw [if_pos h]
      exact toNat_ofNat_valid (by omega)
    have h1 : isWs (toLowerC c) = false := by
      unfold isWs
      rw [h32]
      simp only [Bool.or_eq_false_iff, decide_eq_false_iff_not]
      omega
    have h2 : isWs c = false := by
      unfold isWs
      simp only [Bool.or_eq_false_iff, decide_eq_false_iff_not]
      omega
    rw [h1, h2]
  · unfold toLowerC
    rw [if_neg h]

theorem map_joinSpace (g : Char → Char) (hg : g ' ' = ' ') :
    ∀ ws : List Str, (joinSpace ws).map g = joinSpace (ws.map (List.map g)) := by
  intro ws
  induction ws with
  | nil => rfl
  | cons w ws' ih =>
    cases ws' with
    | nil => rfl
    | cons y ys =>
      rw [joinSpace_cons_ne w (y :: ys) (by simp), List.map_cons,
        joinSpace_cons_ne (w.map g) ((y :: ys).map (List.map g)) (by simp),
        List.map_append, List.map_cons, hg, ih]

theorem titleAux_append_space (b : Str) :
    ∀ (a : Str) (prev : Bool),
      titleAux prev (a ++ ' ' :: b) = titleAux prev a ++ ' ' :: titleAux false b := by
  intro a
  induction a with
  | nil =>
    intro prev
    have : isAlphaC ' ' = false := by decide
    simp [titleAux, this]
  | cons c cs ih =>
    intro prev
    by_cases hc : isAlphaC c
    · simp [titleAux, hc, ih true]
    · simp [titleAux, hc, ih false]

theorem titleStr_joinSpace :
    ∀ ws : List Str, titleStr (joinSpace ws) = joinSpace (ws.map titleStr) := by
  intro ws
  induction ws with
  | nil => rfl
  | cons w ws' ih =>
    cases ws' with
    | nil => rfl
    | cons y ys =>
      rw [joinSpace_cons_ne w (y :: ys) (by simp), List.map_cons,
        joinSpace_cons_ne (titleStr w) ((y :: ys).map titleStr) (by simp)]
      unfold titleStr at ih ⊢
      rw [titleAux_append_space (joinSpace (y :: ys)) w false, ih]

theorem titleAux_length : ∀ (prev : Bool) (w : Str),
    (titleAux prev w).length = w.length := by
  intro prev w
  induction w generalizing prev with
  | nil => rfl
  | cons c cs ih =>
    by_cases hc : isAlphaC c <;> simp [titleAux, hc, ih]

theorem titleAux_nonWs : ∀ (prev : Bool) (w : Str),
    (∀ c ∈ w, isWs c = false) → ∀ c ∈ titleAux prev w, isWs c = false := by
  intro prev w
  induction w generalizing prev with
  | nil => intro _ c hc; cases hc
  | cons d ds ih =>
    intro hw c hc
    have hd : isWs d = false := hw d (List.mem_cons_self _ _)
    have hds : ∀ x ∈ ds, isWs x = false := fun x hx => hw x (List.mem_cons_of_mem _ hx)
    by_cases hda : isAlphaC d
    · simp only [titleAux, hda, if_true] at hc
      rw [List.mem_cons] at hc
      rcases hc with hc | hc
      · subst hc
        by_cases hp : prev
        · rw [if_pos hp, isWs_toLowerC]
          exact hd
        · rw [if_neg hp, isWs_toUpperC]
          exact hd
      · exact ih true hds c hc
    · simp only [titleAux, hda, Bool.false_eq_true, if_false] at hc
      rw [List.mem_cons] at hc
      rcases hc with hc | hc
      · subst hc; exact hd
      · exact ih false hds c hc

theorem goodStr_upperStr {x : Str} (h : GoodStr x) : GoodStr (upperStr x) := by
  obtain ⟨ws, hne, hgood, rfl⟩ := h
  refine ⟨ws.map upperStr, by simpa using hne, ?_, ?_⟩
  · intro w hw
    rw [List.mem_map] at hw
    obtain ⟨w₀, hw₀, rfl⟩ := hw
    obtain ⟨hne₀, hnw₀⟩ := hgood w₀ hw₀
    refine ⟨by simpa [upperStr] using hne₀, ?_⟩
    intro c hc
    rw [upperStr, List.mem_map] at hc
    obtain ⟨c₀, hc₀, rfl⟩ := hc
    rw [isWs_toUpperC]
    exact hnw₀ c₀ hc₀
  · show joinSpace (ws.map upperStr) = upperStr (joinSpace ws)
    unfold upperStr
    exact (map_joinSpace toUpperC (by decide) ws).symm

theorem goodStr_titleStr {x : Str} (h : GoodStr x) : GoodStr (titleStr x) := by
  obtain ⟨ws, hne, hgood, rfl⟩ := h
  refine ⟨ws.map titleStr, by simpa using hne, ?_, (titleStr_joinSpace ws).symm⟩
  intro w hw
  rw [List.mem_map] at hw
  obtain ⟨w₀, hw₀, rfl⟩ := hw
  obtain ⟨hne₀, hnw₀⟩ := hgood w₀ hw₀
  constructor
  · intro hcontra
    have := titleAux_length false w₀
    rw [show titleStr w₀ = titleAux false w₀ from rfl] at hcontra
    rw [hcontra] at this
    exact hne₀ (List.length_eq_zero.mp this.symm)
  · exact titleAux_nonWs false w₀ hnw₀

theorem goodStr_append_nonWs {x p : Str} (h : GoodStr x)
    (hp : ∀ c ∈ p, isWs c = false) : GoodStr (x ++ p) := by
  obtain ⟨ws, hne, hgood, rfl⟩ := h
  induction ws with
  | nil => exact absurd rfl hne
  | cons w ws' ih =>
    cases ws' with
    | nil =>
      refine ⟨[w ++ p], by simp, ?_, by simp [joinSpace]⟩
      intro u hu
      rw [List.mem_singleton] at hu
      subst hu
      obtain ⟨hwne, hwnw⟩ := hgood w (List.mem_cons_self _ _)
      refine ⟨by simp [hwne], ?_⟩
      intro c hc
      rcases List.mem_append.mp hc with hc | hc
      · exact hwnw c hc
      · exact hp c hc
    | cons y ys =>
      obtain ⟨ws₂, hne₂, hgood₂, hj₂⟩ :=
        ih (by simp) (fun u hu => hgood u (List.mem_cons_of_mem _ hu))
      refine ⟨w :: ws₂, by simp, ?_, ?_⟩
      · intro u hu
        rw [List.mem_cons] at hu
        rcases hu with hu | hu
        · rw [hu]
          exact hgood w (List.mem_cons_self _ _)
        · exact hgood₂ u hu
      · rw [joinSpace_cons_ne w ws₂ hne₂, hj₂,
          joinSpace_cons_ne w (y :: ys) (by simp)]
        simp

theorem alookup_mem {β : Type} (k : Str) (v : β) :
    ∀ l : List (Str × β), alookup k l = some v → (k, v) ∈ l := by
  intro l
  induction l with
  | nil => intro h; cases h
  | cons pr rest ih =>
    intro h
    obtain ⟨k', v'⟩ := pr
    by_cases hk : k' = k
    · rw [alookup, if_pos hk] at h
      rw [Option.some_inj] at h
      subst hk; subst h
      exact List.mem_cons_self _ _
    · rw [alookup, if_neg hk] at h
      exact List.mem_cons_of_mem _ (ih h)

/-- A well-formed abbreviation table: every expansion is a nonempty,
already-whitespace-normalized string. -/
def GoodTable (table : List (Str × Str)) : Prop :=
  ∀ pr ∈ table, pr.2 ≠ [] ∧ joinSpace (splitWs pr.2) = pr.2

instance (table : List (Str × Str)) : Decidable (GoodTable table) := by
  unfold GoodTable
  infer_instance

theorem expandWord_good {table : List (Str × Str)} (htab : GoodTable table)
    {w : Str} (hwne : w ≠ []) (hwnw : ∀ c ∈ w, isWs c = false) :
    GoodStr (expandWord table w) := by
  unfold expandWord
  cases hl : alookup (cleanWord w) table with
  | none =>
    exact ⟨[w], by simp, by simpa using ⟨hwne, hwnw⟩, rfl⟩
  | some expansion =>
    obtain ⟨hne, hnorm⟩ := htab _ (alookup_mem _ _ _ hl)
    have hgexp : GoodStr expansion := by
      refine ⟨splitWs expansion, ?_, splitWs_tokens, hnorm⟩
      intro hcontra
      rw [hcontra] at hnorm
      exact hne hnorm.symm
    have hgt : GoodStr (if pyIsUpper w then upperStr expansion
        else if pyIsTitle w then titleStr expansion else expansion) := by
      split
      · exact goodStr_upperStr hgexp
      · split
        · exact goodStr_titleStr hgexp
        · exact hgexp
    exact goodStr_append_nonWs hgt
      (fun c hc => hwnw c (List.mem_filter.mp hc).1)

/-- The expanders' output is always whitespace-normalized: splitting it on
whitespace and re-joining with single spaces is the identity. -/
theorem expandAbbreviations_normalized {table : List (Str × Str)}
    (htab : GoodTable table) (t : Str) :
    joinSpace (splitWs (expandAbbreviations table t)) =
      expandAbbreviations table t := by
  unfold expandAbbreviations
  cases hts : splitWs t with
  | nil => rfl
  | cons w ws =>
    apply isNormalized_of_good
    apply goodStr_join _ (by simp)
    intro x hx
    rw [List.mem_map] at hx
    obtain ⟨w₀, hw₀, rfl⟩ := hx
    rw [← hts] at hw₀
    obtain ⟨h1, h2⟩ := splitWs_tokens w₀ hw₀
    exact expandWord_good htab h1 h2

theorem expandAbbreviations_no_match {table : List (Str × Str)} {t : Str}
    (h : ∀ w ∈ splitWs t, alookup (cleanWord w) table = none) :
    expandAbbreviations table t = joinSpace (splitWs t) := by
  unfold expandAbbreviations
  congr 1
  have : ∀ w ∈ splitWs t, expandWord table w = w := by
    intro w hw
    unfold expandWord
    rw [h w hw]
  calc (splitWs t).map (expandWord table)
      = (splitWs t).map id := List.map_congr_left this
    _ = splitWs t := List.map_id _

/-- **C9.** Both abbreviation expanders return the input's
whitespace-delimited tokens (each individually expanded) joined by single
spaces: when no token matches an abbreviation the output is exactly the
tokens joined by single spaces (so runs of spaces, tabs and newlines are
collapsed), and the output can equal the input only when the input was
already singly-spaced. -/
theorem expanders_collapse_whitespace (t : Str) :
    ((∀ w ∈ splitWs t, alookup (cleanWord w) engineAbbrevs = none) →
      engineExpandAbbreviations t = joinSpace (splitWs t)) ∧
    (engineExpandAbbreviations t = t → t = joinSpace (splitWs t)) ∧
    ((∀ w ∈ splitWs t, alookup (cleanWord w) initialMgr.abbreviations = none) →
      mgrExpandAbbreviations t = joinSpace (splitWs t)) ∧
    (mgrExpandAbbreviations t = t → t = joinSpace (splitWs t)) := by
  have hE : GoodTable engineAbbrevs := by decide
  have hM : GoodTable initialMgr.abbreviations := by decide
  refine ⟨fun h => expandAbbreviations_no_match h, fun hfix => ?_,
    fun h => expandAbbreviations_no_match h, fun hfix => ?_⟩
  · have := expandAbbreviations_normalized hE t
    unfold engineExpandAbbreviations at hfix
    rw [hfix] at this
    exact this.symm
  · have := expandAbbreviations_normalized hM t
    unfold mgrExpandAbbreviations at hfix
    rw [hfix] at this
    exact this.symm

/-- Witness for C9: both expanders collapse the double space of
`"zz  qq"` (which contains no abbreviations) to a single space. -/
theorem expanders_collapse_whitespace_witness :
    engineExpandAbbreviations (S "zz  qq") = S "zz qq" ∧
    mgrExpandAbbreviations (S "zz  qq") = S "zz qq" := by
  constructor
  · have h := (expanders_collapse_whitespace (S "zz  qq")).1 (by decide)
    rw [h]
    decide
  · have h := (expanders_collapse_whitespace (S "zz  qq")).2.2.1 (by decide)
    rw [h]
    decide

/-! ## Terminology matcher (`MedicalNLPEngine._extract_terminology_entities`)
over the engine's built-in fallback terminology dictionary -/

/-- The fallback dictionary created by `_load_medical_terminology`:
category → canonical term → synonyms. -/
def engineTerminology : List (Str × List (Str × List Str)) :=
  [(S "conditions",
     [(S "hypertension", [S "high blood pressure", S "htn", S "elevated bp"]),
      (S "diabetes", [S "diabetes mellitus", S "dm", S "diabetic"]),
      (S "myocardial infarction", [S "heart attack", S "mi", S "cardiac arrest"]),
      (S "pneumonia", [S "lung infection", S "respiratory infection"]),
      (S "fracture", [S "broken bone", S "break", S "fx"]),
      (S "migraine", [S "severe headache", S "headache"]),
      (S "asthma", [S "breathing difficulty", S "wheezing"]),
      (S "depression", [S "depressive disorder", S "mood disorder"])]),
   (S "medications",
     [(S "metformin", [S "glucophage", S "fortamet"]),
      (S "lisinopril", [S "prinivil", S "zestril"]),
      (S "atorvastatin", [S "lipitor"]),
      (S "metoprolol", [S "lopressor", S "toprol"]),
      (S "amlodipine", [S "norvasc"]),
      (S "omeprazole", [S "prilosec"]),
      (S "levothyroxine", [S "synthroid"]),
      (S "albuterol", [S "proventil", S "ventolin"])]),
   (S "body_parts",
     [(S "chest", [S "thorax", S "thoracic"]),
      (S "abdomen", [S "belly", S "abdominal", S "stomach"]),
      (S "head", [S "cranium", S "cranial"]),
      (S "heart", [S "cardiac", S "cardio"]),
      (S "lung", [S "pulmonary", S "respiratory"]),
      (S "kidney", [S "renal", S "nephro"]),
      (S "liver", [S "hepatic", S "hepato"])])]

/-- `_extract_terminology_entities`: for each category and term, if the
term (resp. each synonym) appears as a substring of the lowercased text,
emit one entity at its first occurrence, labeled with the category
uppercased, `normalized_form` the canonical term, confidence 0.85 for the
canonical term and 0.80 for a synonym. -/
def extractTerminologyEntities (text : Str) : List MedEntity :=
  let tl := lowerStr text
  engineTerminology.flatMap (fun cat =>
    cat.2.flatMap (fun tm =>
      (match strFind tm.1 tl with
       | some start =>
         [⟨(text.drop start).take tm.1.length, upperStr cat.1, start,
           start + tm.1.length, (85 : ℚ)/100, tm.1⟩]
       | none => []) ++
      tm.2.flatMap (fun syn =>
        match strFind syn tl with
        | some start =>
          [⟨(text.drop start).take syn.length, upperStr cat.1, start,
            start + syn.length, (8 : ℚ)/10, tm.1⟩]
        | none => [])))

/-- Characterization of one emitted terminology entity. -/
def TermEntityWitness (text : Str) (e : MedEntity) : Prop :=
  ∃ cat ∈ engineTerminology, ∃ tm ∈ cat.2,
    e.label = upperStr cat.1 ∧ e.normalizedForm = tm.1 ∧
    ((e.confidence = (85 : ℚ)/100 ∧ strFind tm.1 (lowerStr text) = some e.start ∧
      e.endPos = e.start + tm.1.length ∧
      e.text = (text.drop e.start).take tm.1.length) ∨
     (e.confidence = (8 : ℚ)/10 ∧ ∃ syn ∈ tm.2,
      strFind syn (lowerStr text) = some e.start ∧
      e.endPos = e.start + syn.length ∧
      e.text = (text.drop e.start).take syn.length))

theorem mem_extractTerminologyEntities {text : Str} {e : MedEntity}
    (he : e ∈ extractTerminologyEntities text) : TermEntityWitness text e := by
  unfold extractTerminologyEntities at he
  rw [List.mem_flatMap] at he
  obtain ⟨cat, hcat, he⟩ := he
  rw [List.mem_flatMap] at he
  obtain ⟨tm, htm, he⟩ := he
  rw [List.mem_append] at he
  refine ⟨cat, hcat, tm, htm, ?_⟩
  rcases he with he | he
  · cases hf : strFind tm.1 (lowerStr text) with
    | none => rw [hf] at he; cases he
    | some start =>
      rw [hf] at he
      rw [List.mem_singleton] at he
      subst he
      exact ⟨rfl, rfl, Or.inl ⟨rfl, rfl, rfl, rfl⟩⟩
  · rw [List.mem_flatMap] at he
    obtain ⟨syn, hsyn, he⟩ := he
    cases hf : strFind syn (lowerStr text) with
    | none => rw [hf] at he; cases he
    | some start =>
      rw [hf] at he
      rw [List.mem_singleton] at he
      subst he
      exact ⟨rfl, rfl, Or.inr ⟨rfl, syn, hsyn, hf, rfl, rfl⟩⟩

theorem extractTerminologyEntities_complete {text : Str} {cat} {tm} {i : Nat}
    (hcat : cat ∈ engineTerminology) (htm : tm ∈ cat.2)
    (hf : strFind tm.1 (lowerStr text) = some i) :
    ∃ e ∈ extractTerminologyEntities text,
      e.normalizedForm = tm.1 ∧ e.label = upperStr cat.1 ∧
      e.confidence = (85 : ℚ)/100 ∧ e.start = i := by
  refine ⟨⟨(text.drop i).take tm.1.length, upperStr cat.1, i,
    i + tm.1.length, (85 : ℚ)/100, tm.1⟩, ?_, rfl, rfl, rfl, rfl⟩
  unfold extractTerminologyEntities
  rw [List.mem_flatMap]
  refine ⟨cat, hcat, ?_⟩
  rw [List.mem_flatMap]
  refine ⟨tm, htm, ?_⟩
  rw [List.mem_append]
  left
  rw [hf]
  exact List.mem_singleton.mpr rfl

theorem extractTerminologyEntities_complete_syn {text : Str} {cat} {tm}
    {syn : Str} {i : Nat}
    (hcat : cat ∈ engineTerminology) (htm : tm ∈ cat.2) (hsyn : syn ∈ tm.2)
    (hf : strFind syn (lowerStr text) = some i) :
    ∃ e ∈ extractTerminologyEntities text,
      e.normalizedForm = tm.1 ∧ e.label = upperStr cat.1 ∧
      e.confidence = (8 : ℚ)/10 ∧ e.start = i ∧ e.endPos = i + syn.length := by
  refine ⟨⟨(text.drop i).take syn.length, upperStr cat.1, i,
    i + syn.length, (8 : ℚ)/10, tm.1⟩, ?_, rfl, rfl, rfl, rfl, rfl⟩
  unfold extractTerminologyEntities
  rw [List.mem_flatMap]
  refine ⟨cat, hcat, ?_⟩
  rw [List.mem_flatMap]
  refine ⟨tm, htm, ?_⟩
  rw [List.mem_append]
  right
  rw [List.mem_flatMap]
  refine ⟨syn, hsyn, ?_⟩
  rw [hf]
  exact List.mem_singleton.mpr rfl

/-- **C8 (amended).** Every entity emitted by the Terminology Matcher
comes from a loaded canonical term or synonym found by case-insensitive
substring search, carries the category label uppercased, the canonical
term as `normalized_form`, confidence 0.85 (canonical) or 0.80 (synonym)
and the span of the FIRST occurrence; every canonical term that occurs
yields such an entity; every synonym that occurs yields such an entity
(confidence 0.80, normalized to the canonical term); and text with no
known term or synonym yields the empty list. -/
theorem terminology_matcher_characterization (text : Str) :
    (∀ e ∈ extractTerminologyEntities text, TermEntityWitness text e) ∧
    (∀ cat ∈ engineTerminology, ∀ tm ∈ cat.2, ∀ i : Nat,
      strFind tm.1 (lowerStr text) = some i →
      ∃ e ∈ extractTerminologyEntities text,
        e.normalizedForm = tm.1 ∧ e.label = upperStr cat.1 ∧
        e.confidence = (85 : ℚ)/100 ∧ e.start = i) ∧
    (∀ cat ∈ engineTerminology, ∀ tm ∈ cat.2, ∀ syn ∈ tm.2, ∀ i : Nat,
      strFind syn (lowerStr text) = some i →
      ∃ e ∈ extractTerminologyEntities text,
        e.normalizedForm = tm.1 ∧ e.label = upperStr cat.1 ∧
        e.confidence = (8 : ℚ)/10 ∧ e.start = i ∧ e.endPos = i + syn.length) ∧
    ((∀ cat ∈ engineTerminology, ∀ tm ∈ cat.2,
        strFind tm.1 (lowerStr text) = none ∧
        ∀ syn ∈ tm.2, strFind syn (lowerStr text) = none) →
      extractTerminologyEntities text = []) := by
  refine ⟨fun e he => mem_extractTerminologyEntities he,
    fun cat hcat tm htm i hf => extractTerminologyEntities_complete hcat htm hf,
    fun cat hcat tm htm syn hsyn i hf =>
      extractTerminologyEntities_complete_syn hcat htm hsyn hf,
    fun hnone => ?_⟩
  cases hout : extractTerminologyEntities text with
  | nil => rfl
  | cons e rest =>
    exfalso
    have he : e ∈ extractTerminologyEntities text := by
      rw [hout]; exact List.mem_cons_self _ _
    obtain ⟨cat, hcat, tm, htm, _, _, hcase⟩ := mem_extractTerminologyEntities he
    obtain ⟨hmain, hsyns⟩ := hnone cat hcat tm htm
    rcases hcase with ⟨_, hf, _⟩ | ⟨_, syn, hsyn, hf, _⟩
    · rw [hmain] at hf; cases hf
    · rw [hsyns syn hsyn] at hf; cases hf

/-- Witness for C8's amended characterization at concrete inputs: text
with no known terms yields `[]`, `"Pt has hypertension."` yields a
canonical-term entity, and `"Pt has htn."` yields a synonym entity at
confidence 0.80 for the synonym `"htn"` of `"hypertension"`. -/
theorem terminology_matcher_characterization_witness :
    extractTerminologyEntities (S "qqq zzz") = [] ∧
    (∃ e ∈ extractTerminologyEntities (S "Pt has hypertension."),
      e.normalizedForm = S "hypertension" ∧ e.label = S "CONDITIONS" ∧
      e.confidence = (85 : ℚ)/100 ∧ e.start = 7) ∧
    ∃ e ∈ extractTerminologyEntities (S "Pt has htn."),
      e.normalizedForm = S "hypertension" ∧ e.label = S "CONDITIONS" ∧
      e.confidence = (8 : ℚ)/10 ∧ e.start = 7 ∧
      e.endPos = 7 + (S "htn").length := by
  refine ⟨?_, ?_, ?_⟩
  · exact (terminology_matcher_characterization (S "qqq zzz")).2.2.2 (by decide)
  · have h := (terminology_matcher_characterization (S "Pt has hypertension.")).2.1
      (S "conditions",
        [(S "hypertension", [S "high blood pressure", S "htn", S "elevated bp"]),
         (S "diabetes", [S "diabetes mellitus", S "dm", S "diabetic"]),
         (S "myocardial infarction", [S "heart attack", S "mi", S "cardiac arrest"]),
         (S "pneumonia", [S "lung infection", S "respiratory infection"]),
         (S "fracture", [S "broken bone", S "break", S "fx"]),
         (S "migraine", [S "severe headache", S "headache"]),
         (S "asthma", [S "breathing difficulty", S "wheezing"]),
         (S "depression", [S "depressive disorder", S "mood disorder"])])
      (by decide)
      (S "hypertension", [S "high blood pressure", S "htn", S "elevated bp"])
      (by decide) 7 (by decide)
    simpa using h
  · have h := (terminology_matcher_characterization (S "Pt has htn.")).2.2.1
      (S "conditions",
        [(S "hypertension", [S "high blood pressure", S "htn", S "elevated bp"]),
         (S "diabetes", [S "diabetes mellitus", S "dm", S "diabetic"]),
         (S "myocardial infarction", [S "heart attack", S "mi", S "cardiac arrest"]),
         (S "pneumonia", [S "lung infection", S "respiratory infection"]),
         (S "fracture", [S "broken bone", S "break", S "fx"]),
         (S "migraine", [S "severe headache", S "headache"]),
         (S "asthma", [S "breathing difficulty", S "wheezing"]),
         (S "depression", [S "depressive disorder", S "mood disorder"])])
      (by decide)
      (S "hypertension", [S "high blood pressure", S "htn", S "elevated bp"])
      (by decide) (S "htn") (by decide) 7 (by decide)
    simpa using h

/-- **C8 (counterexample to the claim as stated).** On text containing two
occurrences of `"hypertension"`, the matcher emits a single entity at the
first occurrence, not one entity per occurrence. -/
theorem terminology_matcher_single_entity_per_term :
    extractTerminologyEntities (S "hypertension hypertension") =
      [⟨S "hypertension", S "CONDITIONS", 0, 12, (85 : ℚ)/100, S "hypertension"⟩] ∧
    ∀ e ∈ extractTerminologyEntities (S "hypertension hypertension"),
      e.start = 0 := by
  constructor
  · rfl
  · decide

/-! ## Term normalization and entity enhancement
(`MedicalTerminologyManager.normalize_term` / `_fuzzy_match` /
`get_medical_codes` / `validate_medical_term`, and
`MedicalNLPService._enhance_entities_with_terminology`) -/

/-- `_fuzzy_match`: word-overlap scoring against every term key and every
synonym, keeping the best strictly-improving score above 0.5, returned only
when the final best score exceeds 0.6. -/
def fuzzyMatch (mgr : TermMgr) (text : Str) : Option Str :=
  let tw := (splitWs text).eraseDups
  let res := mgr.terms.foldl (fun (acc : Option Str × ℚ) pr =>
    let kw := (splitWs pr.1).eraseDups
    let overlap := (tw.filter (fun w => kw.contains w)).length
    let score : ℚ := (overlap : ℚ) / (max tw.length kw.length : Nat)
    let acc1 := if score > acc.2 ∧ score > 1/2 then (some pr.2.term, score) else acc
    pr.2.synonyms.foldl (fun acc2 syn =>
      let sw := (splitWs (lowerStr syn)).eraseDups
      let overlap2 := (tw.filter (fun w => sw.contains w)).length
      let score2 : ℚ := (overlap2 : ℚ) / (max tw.length sw.length : Nat)
      if score2 > acc2.2 ∧ score2 > 1/2 then (some pr.2.term, score2) else acc2)
      acc1)
    (none, 0)
  if res.2 > 3/5 then res.1 else none

/-- `normalize_term`: lowercase and strip, then direct term, synonym and
abbreviation lookups, falling back to fuzzy matching. -/
def normalizeTerm (mgr : TermMgr) (text : Str) : Option Str :=
  let tl := stripWs (lowerStr text)
  match alookup tl mgr.terms with
  | some t => some t.term
  | none =>
    match alookup tl mgr.synonyms with
    | some s => some s
    | none =>
      match alookup tl mgr.abbreviations with
      | some a => some a
      | none => fuzzyMatch mgr tl

/-- `get_medical_codes`. -/
def getMedicalCodes (mgr : TermMgr) (term : Str) : List MgrCode :=
  match normalizeTerm mgr term with
  | none => []
  | some nt =>
    match alookup nt mgr.terms with
    | some t => t.codes
    | none => []

/-- The result dictionary of `validate_medical_term` (no expected
category), with the `KeyError`-swallowing handler folded in. -/
structure MgrValidation where
  isValid : Bool
  confidence : ℚ
  normalizedTerm : Option Str
  deriving DecidableEq, Repr

def validateMedicalTerm (mgr : TermMgr) (term : Str) : MgrValidation :=
  match normalizeTerm mgr term with
  | none => ⟨false, 0, none⟩
  | some nt =>
    match alookup nt mgr.terms with
    | some tobj => ⟨true, tobj.confidence, some nt⟩
    | none => ⟨false, 0, none⟩

/-- An entity dictionary as handed to
`_enhance_entities_with_terminology` (the engine's `to_dict` output). -/
structure PipelineEntity where
  text : Str
  label : Str
  start : Nat
  endPos : Nat
  confidence : ℚ
  normalizedForm : Str
  medicalCodes : List MgrCode
  deriving DecidableEq, Repr

/-- The enhanced entity dictionary. -/
structure EnhancedEntity where
  text : Str
  label : Str
  start : Nat
  endPos : Nat
  confidence : ℚ
  normalizedForm : Str
  medicalCodes : List MgrCode
  validation : MgrValidation
  deriving DecidableEq, Repr

/-- The per-entity body of `_enhance_entities_with_terminology`: when
`normalize_term` succeeds the normalized form is stored and the confidence
is multiplied by 1.1 (with no clamping); terminology codes replace the
entity's codes when non-empty; the validation dictionary is attached. -/
def enhanceEntity (mgr : TermMgr) (e : PipelineEntity) : EnhancedEntity :=
  let norm := normalizeTerm mgr e.text
  let codes := getMedicalCodes mgr e.text
  { text := e.text
    label := e.label
    start := e.start
    endPos := e.endPos
    confidence :=
      match norm with
      | some _ => e.confidence * (11/10)
      | none => e.confidence
    normalizedForm :=
      match norm with
      | some nt => nt
      | none => e.normalizedForm
    medicalCodes := if codes.isEmpty then e.medicalCodes else codes
    validation := validateMedicalTerm mgr e.text }

def enhanceEntities (mgr : TermMgr) (es : List PipelineEntity) : List EnhancedEntity :=
  es.map (enhanceEntity mgr)

/-- **C2 (counterexample to the claim as stated).** The 1.1 confidence
boost of `_enhance_entities_with_terminology` is NOT clamped: on an entity
with confidence 0.95 whose text `"hypertension"` is a recognized term, the
enhanced confidence is 0.95 × 1.1 = 1.045 > 1.0. -/
theorem enhance_confidence_not_clamped :
    (enhanceEntity initialMgr
      ⟨S "hypertension", S "CONDITIONS", 0, 12, 95/100, S "hypertension", []⟩).confidence
      = 209/200 ∧
    ¬ (enhanceEntity initialMgr
      ⟨S "hypertension", S "CONDITIONS", 0, 12, 95/100, S "hypertension", []⟩).confidence
      ≤ 1 := by
  have h : (enhanceEntity initialMgr
      ⟨S "hypertension", S "CONDITIONS", 0, 12, 95/100, S "hypertension", []⟩).confidence
      = (95/100 : ℚ) * (11/10) := rfl
  rw [h]
  constructor <;> norm_num

/-- **C2 (amended).** The enhancement step multiplies a matched entity's
confidence by exactly 1.1 and leaves other confidences unchanged; no clamp
is applied, so enhanced confidences stay in `[0, 1]` exactly when every
input confidence lies in `[0, 10/11]` (which holds for all entities the
engine's extractors emit to the enhancer with a matchable text). -/
theorem enhance_entities_confidence_bounds (mgr : TermMgr)
    (es : List PipelineEntity)
    (h : ∀ e ∈ es, 0 ≤ e.confidence ∧ e.confidence ≤ 10/11) :
    ∀ e' ∈ enhanceEntities mgr es,
      0 ≤ e'.confidence ∧ e'.confidence ≤ 1 := by
  intro e' he'
  rw [enhanceEntities, List.mem_map] at he'
  obtain ⟨e, he, rfl⟩ := he'
  obtain ⟨h0, h1⟩ := h e he
  show 0 ≤ (enhanceEntity mgr e).confidence ∧ (enhanceEntity mgr e).confidence ≤ 1
  have hconf : (enhanceEntity mgr e).confidence = e.confidence * (11/10) ∨
      (enhanceEntity mgr e).confidence = e.confidence := by
    unfold enhanceEntity
    cases normalizeTerm mgr e.text with
    | none => right; rfl
    | some nt => left; rfl
  rcases hconf with hc | hc <;> rw [hc] <;> constructor
  · positivity
  · nlinarith
  · exact h0
  · linarith

/-- Witness for C2's amended bound at the terminology matcher's
0.85-confidence output entity. -/
theorem enhance_entities_confidence_bounds_witness :
    0 ≤ (enhanceEntity initialMgr
      ⟨S "hypertension", S "CONDITIONS", 0, 12, 85/100, S "hypertension", []⟩).confidence ∧
    (enhanceEntity initialMgr
      ⟨S "hypertension", S "CONDITIONS", 0, 12, 85/100, S "hypertension", []⟩).confidence
      ≤ 1 := by
  have h := enhance_entities_confidence_bounds initialMgr
    [⟨S "hypertension", S "CONDITIONS", 0, 12, 85/100, S "hypertension", []⟩]
    (by
      intro e he
      rw [List.mem_singleton] at he
      rw [he]
      show (0 : ℚ) ≤ 85/100 ∧ (85/100 : ℚ) ≤ 10/11
      norm_num)
  exact h (enhanceEntity initialMgr
      ⟨S "hypertension", S "CONDITIONS", 0, 12, 85/100, S "hypertension", []⟩)
    (by
      unfold enhanceEntities
      exact List.mem_map_of_mem _ (List.mem_singleton.mpr rfl))

/-! ## Form mapper (`MedicalFormMapper` in `models/medical_models.py`) -/

/-- One field of a form template: `{'required': ..., 'type': ...}`. -/
structure FieldConfig where
  required : Bool
  ftype : Str
  deriving DecidableEq, Repr

/-- One mapped field of the result form. -/
structure MappedField where
  value : Option Str
  confidence : ℚ
  required : Bool
  ftype : Str
  autoFilled : Bool
  deriving DecidableEq, Repr

/-- One entry of the `extracted_fields` argument (only the `value` and
`confidence` keys are read by `map_to_form`). -/
structure ExtractedData where
  value : Str
  confidence : ℚ
  deriving DecidableEq, Repr

/-- The `validation_results` dictionary (`error` is only set by the
exception-handler fallback). -/
structure ValidationResults where
  isValid : Bool
  missingRequired : List Str
  fieldWarnings : List (Str × ℚ)
  confidenceScores : List (Str × ℚ)
  error : Option Str
  deriving DecidableEq, Repr

/-- The dictionary returned by `map_to_form`. -/
structure FormMapResult where
  formType : Str
  mappedFields : List (Str × MappedField)
  validation : ValidationResults
  completionRate : ℚ
  fieldsFilled : Nat
  totalFields : Nat
  deriving DecidableEq, Repr

/-- The built-in templates of `_load_form_templates`. -/
def formTemplates : List (Str × List (Str × FieldConfig)) :=
  [(S "patient_intake",
     [(S "patient_name", ⟨true, S "text"⟩),
      (S "date_of_birth", ⟨true, S "date"⟩),
      (S "age", ⟨false, S "number"⟩),
      (S "insurance_id", ⟨true, S "text"⟩),
      (S "chief_complaint", ⟨true, S "textarea"⟩),
      (S "medications", ⟨false, S "textarea"⟩),
      (S "allergies", ⟨false, S "text"⟩)]),
   (S "discharge_summary",
     [(S "patient_name", ⟨true, S "text"⟩),
      (S "medical_record_number", ⟨true, S "text"⟩),
      (S "primary_diagnosis", ⟨true, S "text"⟩),
      (S "medications", ⟨true, S "textarea"⟩),
      (S "discharge_instructions", ⟨true, S "textarea"⟩)]),
   (S "insurance_claim",
     [(S "patient_name", ⟨true, S "text"⟩),
      (S "date_of_birth", ⟨true, S "date"⟩),
      (S "insurance_id", ⟨true, S "text"⟩),
      (S "primary_diagnosis", ⟨true, S "text"⟩),
      (S "procedure_codes", ⟨false, S "text"⟩),
      (S "provider_name", ⟨true, S "text"⟩)])]

/-- The alias table of `_initialize_field_mappings`. -/
def fieldMappings : List (Str × List Str) :=
  [(S "patient_name", [S "patient_name", S "name", S "full_name"]),
   (S "date_of_birth", [S "date_of_birth", S "dob", S "birth_date"]),
   (S "age", [S "age", S "patient_age"]),
   (S "medical_record_number",
     [S "mrn", S "medical_record_number", S "record_number"]),
   (S "insurance_id", [S "insurance_id", S "policy_number", S "member_id"]),
   (S "primary_diagnosis",
     [S "primary_diagnosis", S "diagnosis", S "main_diagnosis"]),
   (S "chief_complaint",
     [S "chief_complaint", S "complaint", S "presenting_problem"]),
   (S "medications", [S "medications", S "current_medications", S "meds"]),
   (S "allergies", [S "allergies", S "drug_allergies", S "known_allergies"])]

/-- `_fields_match`: exact name identity, else membership of the form
field in the alias list stored under the extracted field's name. -/
def fieldsMatch (extracted form : Str) : Bool :=
  if extracted = form then true
  else
    match alookup extracted fieldMappings with
    | some aliases => aliases.contains form
    | none => false

/-- The inner search of `map_to_form`: first extracted entry (in insertion
order) whose name matches the template field. -/
def findExtracted (extracted : List (Str × ExtractedData)) (formField : Str) :
    Option ExtractedData :=
  match extracted with
  | [] => none
  | (k, d) :: rest =>
    if fieldsMatch k formField then some d else findExtracted rest formField

/-- Python truthiness of the mapped value (`None` and `""` are falsy). -/
def truthyOpt : Option Str → Bool
  | none => false
  | some s => !s.isEmpty

def mappedValueFor (extracted : List (Str × ExtractedData)) (fname : Str) :
    Option Str :=
  (findExtracted extracted fname).map (·.value)

def confidenceFor (extracted : List (Str × ExtractedData)) (fname : Str) : ℚ :=
  ((findExtracted extracted fname).map (·.confidence)).getD 0

/-- The mapped-field record built for one template field. -/
def mkMappedField (extracted : List (Str × ExtractedData))
    (pr : Str × FieldConfig) : MappedField :=
  ⟨mappedValueFor extracted pr.1, confidenceFor extracted pr.1,
   pr.2.required, pr.2.ftype, (mappedValueFor extracted pr.1).isSome⟩

/-- The accumulating state of `map_to_form`'s per-field loop. -/
structure MapFoldState where
  mapped : List (Str × MappedField)
  isValid : Bool
  missing : List Str
  warnings : List (Str × ℚ)
  scores : List (Str × ℚ)
  deriving DecidableEq, Repr

/-- One iteration of the per-field loop: store the mapped field, flag a
missing required field (clearing `is_valid`), record a low-confidence
warning, and record the confidence score. -/
def mapFieldsStep (extracted : List (Str × ExtractedData))
    (st : MapFoldState) (pr : Str × FieldConfig) : MapFoldState :=
  let mv := mappedValueFor extracted pr.1
  let conf := confidenceFor extracted pr.1
  let st1 := { st with mapped := st.mapped ++ [(pr.1, mkMappedField extracted pr)] }
  let st2 :=
    if pr.2.required && !truthyOpt mv then
      { st1 with missing := st1.missing ++ [pr.1], isValid := false }
    else st1
  let st3 :=
    if truthyOpt mv && decide (conf < mkRat 7 10) then
      { st2 with warnings := st2.warnings ++ [(pr.1, conf)] }
    else st2
  { st3 with scores := st3.scores ++ [(pr.1, conf)] }

/-- The `try` block of `map_to_form`: raising `ValueError` for an
unregistered form type, otherwise the mapped form with validation and
completion metrics. -/
def mapToFormBody (extracted : List (Str × ExtractedData)) (formType : Str) :
    Except Str FormMapResult :=
  match alookup formType formTemplates with
  | none => Except.error (S "Unknown form type: " ++ formType)
  | some fields =>
    let st := fields.foldl (mapFieldsStep extracted) ⟨[], true, [], [], []⟩
    let filled := (st.mapped.filter (fun pr => truthyOpt pr.2.value)).length
    let total := st.mapped.length
    let rate : ℚ := if total > 0 then (filled : ℚ) / (total : ℚ) else 0
    Except.ok
      ⟨formType, st.mapped, ⟨st.isValid, st.missing, st.warnings, st.scores, none⟩,
       rate, filled, total⟩

/-- `map_to_form` as observed by callers: its own `except Exception`
handler folds the raised `ValueError` into a normal result dictionary
with `is_valid = False` and the error message. -/
def mapToForm (extracted : List (Str × ExtractedData)) (formType : Str) :
    FormMapResult :=
  match mapToFormBody extracted formType with
  | Except.ok r => r
  | Except.error msg => ⟨formType, [], ⟨false, [], [], [], some msg⟩, 0, 0, 0⟩

theorem mapFieldsStep_mapped (extracted : List (Str × ExtractedData))
    (st : MapFoldState) (pr : Str × FieldConfig) :
    (mapFieldsStep extracted st pr).mapped =
      st.mapped ++ [(pr.1, mkMappedField extracted pr)] := by
  simp only [mapFieldsStep]
  split <;> split <;> rfl

theorem mapFieldsStep_invariant (extracted : List (Str × ExtractedData))
    (st : MapFoldState) (pr : Str × FieldConfig)
    (h : st.isValid = true ↔ st.missing = []) :
    ((mapFieldsStep extracted st pr).isValid = true ↔
      (mapFieldsStep extracted st pr).missing = []) := by
  simp only [mapFieldsStep]
  split <;> split <;> simp_all

theorem mapFold_mapped (extracted : List (Str × ExtractedData)) :
    ∀ (fields : List (Str × FieldConfig)) (st : MapFoldState),
      (fields.foldl (mapFieldsStep extracted) st).mapped =
        st.mapped ++ fields.map (fun pr => (pr.1, mkMappedField extracted pr)) := by
  intro fields
  induction fields with
  | nil => intro st; simp
  | cons pr rest ih =>
    intro st
    rw [List.foldl_cons, ih, mapFieldsStep_mapped]
    simp

theorem mapFold_invariant (extracted : List (Str × ExtractedData)) :
    ∀ (fields : List (Str × FieldConfig)) (st : MapFoldState),
      (st.isValid = true ↔ st.missing = []) →
      ((fields.foldl (mapFieldsStep extracted) st).isValid = true ↔
        (fields.foldl (mapFieldsStep extracted) st).missing = []) := by
  intro fields
  induction fields with
  | nil => intro st h; exact h
  | cons pr rest ih =>
    intro st h
    rw [List.foldl_cons]
    exact ih _ (mapFieldsStep_invariant extracted st pr h)

theorem mapToForm_mappedFields {extracted : List (Str × ExtractedData)}
    {ft : Str} {fields : List (Str × FieldConfig)}
    (h : alookup ft formTemplates = some fields) :
    (mapToForm extracted ft).mappedFields =
      fields.map (fun pr => (pr.1, mkMappedField extracted pr)) := by
  unfold mapToForm mapToFormBody
  rw [h]
  show (fields.foldl (mapFieldsStep extracted) ⟨[], true, [], [], []⟩).mapped =
    fields.map (fun pr => (pr.1, mkMappedField extracted pr))
  rw [mapFold_mapped]
  rfl

theorem mapToForm_totalFields {extracted : List (Str × ExtractedData)}
    {ft : Str} {fields : List (Str × FieldConfig)}
    (h : alookup ft formTemplates = some fields) :
    (mapToForm extracted ft).totalFields = fields.length := by
  unfold mapToForm mapToFormBody
  rw [h]
  show (fields.foldl (mapFieldsStep extracted) ⟨[], true, [], [], []⟩).mapped.length
    = fields.length
  rw [mapFold_mapped]
  simp

theorem mapToForm_fieldsFilled {extracted : List (Str × ExtractedData)}
    {ft : Str} {fields : List (Str × FieldConfig)}
    (h : alookup ft formTemplates = some fields) :
    (mapToForm extracted ft).fieldsFilled =
      ((mapToForm extracted ft).mappedFields.filter
        (fun pr => truthyOpt pr.2.value)).length := by
  unfold mapToForm mapToFormBody
  rw [h]

theorem mapToForm_completionRate {extracted : List (Str × ExtractedData)}
    {ft : Str} {fields : List (Str × FieldConfig)}
    (h : alookup ft formTemplates = some fields) :
    (mapToForm extracted ft).completionRate =
      if 0 < (mapToForm extracted ft).totalFields then
        ((mapToForm extracted ft).fieldsFilled : ℚ) /
          ((mapToForm extracted ft).totalFields : ℚ)
      else 0 := by
  unfold mapToForm mapToFormBody
  rw [h]

theorem mapToForm_validation {extracted : List (Str × ExtractedData)}
    {ft : Str} {fields : List (Str × FieldConfig)}
    (h : alookup ft formTemplates = some fields) :
    (mapToForm extracted ft).validation.isValid =
      (fields.foldl (mapFieldsStep extracted) ⟨[], true, [], [], []⟩).isValid ∧
    (mapToForm extracted ft).validation.missingRequired =
      (fields.foldl (mapFieldsStep extracted) ⟨[], true, [], [], []⟩).missing := by
  unfold mapToForm mapToFormBody
  rw [h]
  exact ⟨rfl, rfl⟩


/-- **C6.** For every registered form type and every extracted-field set,
`map_to_form`'s validation result satisfies `is_valid = true` exactly when
`missing_required` is empty. -/
theorem map_to_form_is_valid_iff_no_missing
    (extracted : List (Str × ExtractedData)) (ft : Str)
    (fields : List (Str × FieldConfig))
    (h : alookup ft formTemplates = some fields) :
    ((mapToForm extracted ft).validation.isValid = true ↔
      (mapToForm extracted ft).validation.missingRequired = []) := by
  obtain ⟨h1, h2⟩ := mapToForm_validation h
  rw [h1, h2]
  exact mapFold_invariant extracted fields _ (by simp)

/-- Witness for C6: with no extracted fields, `patient_intake` has missing
required fields and `is_valid = false`. -/
theorem map_to_form_is_valid_iff_no_missing_witness :
    (mapToForm [] (S "patient_intake")).validation.isValid = false ∧
    (mapToForm [] (S "patient_intake")).validation.missingRequired ≠ [] := by
  have h := map_to_form_is_valid_iff_no_missing [] (S "patient_intake")
    [(S "patient_name", ⟨true, S "text"⟩),
     (S "date_of_birth", ⟨true, S "date"⟩),
     (S "age", ⟨false, S "number"⟩),
     (S "insurance_id", ⟨true, S "text"⟩),
     (S "chief_complaint", ⟨true, S "textarea"⟩),
     (S "medications", ⟨false, S "textarea"⟩),
     (S "allergies", ⟨false, S "text"⟩)]
    (by decide)
  have hmiss : (mapToForm [] (S "patient_intake")).validation.missingRequired =
      [S "patient_name", S "date_of_birth", S "insurance_id", S "chief_complaint"] := by
    decide
  constructor
  · have := h.not
    rw [hmiss] at h
    cases hval : (mapToForm [] (S "patient_intake")).validation.isValid
    · rfl
    · exact absurd (h.mp hval) (by simp)
  · rw [hmiss]
    simp

/-- **C3 (counterexample to the claim as stated).** For an unregistered
`formType` the caller receives a NORMAL result dictionary — the internal
`ValueError` is swallowed by `map_to_form`'s own exception handler and
folded into `validation = {'is_valid': False, 'error': ...}`. -/
theorem map_to_form_unknown_type_swallowed :
    mapToForm [] (S "unknown_form") =
      ⟨S "unknown_form", [],
       ⟨false, [], [], [], some (S "Unknown form type: unknown_form")⟩,
       0, 0, 0⟩ := by
  rfl

/-- **C3 (amended).** For every unregistered `formType`, the `try` body of
`map_to_form` raises `ValueError("Unknown form type: ...")`, but the
function's own `except` handler catches it and returns a normal fallback
result (empty mapped fields, `is_valid = false`, the message under the
`error` key, zero completion); no error reaches the caller. -/
theorem map_to_form_unknown_type_behaviour
    (extracted : List (Str × ExtractedData)) (ft : Str)
    (h : alookup ft formTemplates = none) :
    mapToFormBody extracted ft = Except.error (S "Unknown form type: " ++ ft) ∧
    mapToForm extracted ft =
      ⟨ft, [], ⟨false, [], [], [], some (S "Unknown form type: " ++ ft)⟩,
       0, 0, 0⟩ := by
  constructor
  · unfold mapToFormBody
    rw [h]
  · unfold mapToForm mapToFormBody
    rw [h]

/-- Witness for C3's amended statement. -/
theorem map_to_form_unknown_type_behaviour_witness :
    mapToFormBody [] (S "no_such_form") =
      Except.error (S "Unknown form type: " ++ S "no_such_form") :=
  (map_to_form_unknown_type_behaviour [] (S "no_such_form") (by decide)).1

/-- An extracted-field set giving every `patient_intake` field a non-null
value, with an empty (but non-null) string for `chief_complaint`. -/
def emptyStringExtracted : List (Str × ExtractedData) :=
  [(S "patient_name", ⟨S "John Doe", mkRat 9 10⟩),
   (S "date_of_birth", ⟨S "01/01/2000", mkRat 9 10⟩),
   (S "age", ⟨S "45", mkRat 9 10⟩),
   (S "insurance_id", ⟨S "INS1", mkRat 9 10⟩),
   (S "chief_complaint", ⟨S "", mkRat 9 10⟩),
   (S "medications", ⟨S "aspirin", mkRat 9 10⟩),
   (S "allergies", ⟨S "none known", mkRat 9 10⟩)]

/-- **C5 (counterexample to the claim as stated).** Completion is counted
by Python truthiness, not by non-nullness: with every template field
mapped to a non-null value but `chief_complaint` mapped to the empty
string, every mapped field has a non-null value (`auto_filled` is even
true for all of them) yet `completion_rate = 6/7 ≠ 1.0`. -/
theorem completion_rate_one_iff_counterexample :
    (∀ pr ∈ (mapToForm emptyStringExtracted (S "patient_intake")).mappedFields,
      pr.2.value.isSome = true) ∧
    (mapToForm emptyStringExtracted (S "patient_intake")).completionRate ≠ 1 := by
  constructor
  · decide
  · have h : (mapToForm emptyStringExtracted (S "patient_intake")).completionRate
        = ((6 : Nat) : ℚ) / ((7 : Nat) : ℚ) := rfl
    rw [h]
    norm_num

/-- **C5 (amended).** For every registered form type and extracted-field
set: `completion_rate = fields_filled / total_fields` (0 if the template
had no fields), it lies in `[0, 1]`, and it equals 1.0 exactly when every
template field received a truthy (non-null and non-empty) value. -/
theorem map_to_form_completion_rate_spec
    (extracted : List (Str × ExtractedData)) (ft : Str)
    (fields : List (Str × FieldConfig))
    (h : alookup ft formTemplates = some fields) :
    ((mapToForm extracted ft).totalFields = 0 →
      (mapToForm extracted ft).completionRate = 0) ∧
    (0 < (mapToForm extracted ft).totalFields →
      (mapToForm extracted ft).completionRate =
        ((mapToForm extracted ft).fieldsFilled : ℚ) /
          ((mapToForm extracted ft).totalFields : ℚ)) ∧
    0 ≤ (mapToForm extracted ft).completionRate ∧
    (mapToForm extracted ft).completionRate ≤ 1 ∧
    (0 < (mapToForm extracted ft).totalFields →
      ((mapToForm extracted ft).completionRate = 1 ↔
        ∀ pr ∈ (mapToForm extracted ft).mappedFields,
          truthyOpt pr.2.value = true)) := by
  have hrate := @mapToForm_completionRate extracted ft fields h
  have hfilled := @mapToForm_fieldsFilled extracted ft fields h
  have htot := @mapToForm_totalFields extracted ft fields h
  have hlen : (mapToForm extracted ft).mappedFields.length = fields.length := by
    rw [@mapToForm_mappedFields extracted ft fields h]
    simp
  have hfilter := List.length_filter_le (fun pr => truthyOpt pr.2.value)
    ((mapToForm extracted ft).mappedFields)
  have hfle : (mapToForm extracted ft).fieldsFilled ≤
      (mapToForm extracted ft).totalFields := by omega
  refine ⟨?_, ?_, ?_, ?_, ?_⟩
  · intro h0
    rw [hrate, if_neg (by omega)]
  · intro h0
    rw [hrate, if_pos h0]
  · rw [hrate]
    split
    · positivity
    · norm_num
  · rw [hrate]
    split
    · rename_i h0
      rw [div_le_one (by exact_mod_cast h0)]
      exact_mod_cast hfle
    · norm_num
  · intro h0
    rw [hrate, if_pos h0]
    have htotq : ((mapToForm extracted ft).totalFields : ℚ) ≠ 0 := by
      exact_mod_cast Nat.pos_iff_ne_zero.mp h0
    rw [div_eq_one_iff_eq htotq]
    constructor
    · intro heq
      have heqn : (mapToForm extracted ft).fieldsFilled =
          (mapToForm extracted ft).totalFields := by exact_mod_cast heq
      apply List.filter_length_eq_length.mp
      omega
    · intro hall
      have hfl : (List.filter (fun pr => truthyOpt pr.2.value)
          ((mapToForm extracted ft).mappedFields)).length =
          (mapToForm extracted ft).mappedFields.length :=
        List.filter_length_eq_length.mpr hall
      have : (mapToForm extracted ft).fieldsFilled =
          (mapToForm extracted ft).totalFields := by omega
      exact_mod_cast this

/-- Witness for C5's amended statement: with no extracted fields,
`patient_intake`'s completion rate is 0, within bounds. -/
theorem map_to_form_completion_rate_spec_witness :
    0 ≤ (mapToForm [] (S "patient_intake")).completionRate ∧
    (mapToForm [] (S "patient_intake")).completionRate ≤ 1 := by
  have h := map_to_form_completion_rate_spec [] (S "patient_intake")
    [(S "patient_name", ⟨true, S "text"⟩),
     (S "date_of_birth", ⟨true, S "date"⟩),
     (S "age", ⟨false, S "number"⟩),
     (S "insurance_id", ⟨true, S "text"⟩),
     (S "chief_complaint", ⟨true, S "textarea"⟩),
     (S "medications", ⟨false, S "textarea"⟩),
     (S "allergies", ⟨false, S "text"⟩)]
    (by decide)
  exact ⟨h.2.2.1, h.2.2.2.1⟩

/-- **C10.** Alias matching is directional: `_fields_match e f` holds
exactly when `e = f` or `f` occurs in the alias list stored under key `e`;
in particular the alias `"dob"` does not match the canonical field
`"date_of_birth"`, so for every registered template an extracted field
named `"dob"` leaves the `date_of_birth` template field unfilled. -/
theorem fields_match_directional :
    (∀ e f : Str, fieldsMatch e f = true ↔
      (e = f ∨ ∃ aliases, alookup e fieldMappings = some aliases ∧ f ∈ aliases)) ∧
    fieldsMatch (S "dob") (S "date_of_birth") = false ∧
    (∀ ft fields, alookup ft formTemplates = some fields →
      ∀ d : ExtractedData,
        ∀ pr ∈ (mapToForm [(S "dob", d)] ft).mappedFields,
          pr.1 = S "date_of_birth" → pr.2.value = none) := by
  refine ⟨?_, by decide, ?_⟩
  · intro e f
    unfold fieldsMatch
    by_cases hef : e = f
    · simp [hef]
    · rw [if_neg hef]
      cases hl : alookup e fieldMappings with
      | none => simp [hef]
      | some aliases =>
        constructor
        · intro hm
          exact Or.inr ⟨aliases, rfl, List.elem_iff.mp hm⟩
        · intro hm
          rcases hm with hm | ⟨al, hal, hmem⟩
          · exact absurd hm hef
          · rw [Option.some_inj] at hal
            rw [hal]
            exact List.elem_iff.mpr hmem
  · intro ft fields hft d pr hpr hname
    rw [mapToForm_mappedFields hft, List.mem_map] at hpr
    obtain ⟨fpr, _, rfl⟩ := hpr
    have hname' : fpr.1 = S "date_of_birth" := hname
    show mappedValueFor [(S "dob", d)] fpr.1 = none
    rw [hname']
    have hstep : findExtracted [(S "dob", d)] (S "date_of_birth") =
        if fieldsMatch (S "dob") (S "date_of_birth") then some d
        else findExtracted [] (S "date_of_birth") := rfl
    show (findExtracted [(S "dob", d)] (S "date_of_birth")).map (fun x => x.value) = none
    rw [hstep, if_neg (by decide : ¬ fieldsMatch (S "dob") (S "date_of_birth") = true)]
    rfl

/-- Witness for C10: the alias table does map extracted `"age"` onto a
template field `"patient_age"`, and an extracted `"dob"` leaves
`patient_intake`'s `date_of_birth` unfilled. -/
theorem fields_match_directional_witness :
    fieldsMatch (S "age") (S "patient_age") = true := by
  refine (fields_match_directional.1 (S "age") (S "patient_age")).mpr
    (Or.inr ⟨[S "age", S "patient_age"], by decide, by decide⟩)

/-! ## Code manager (`medical_codes.py`: `MedicalCodeManager.search_codes`) -/

/-- `MedicalCode` of `medical_codes.py` (the fields `search_codes` reads);
`system` holds the enum's `.value` string (e.g. `"ICD-10-CM"`). -/
structure CodeEntry where
  code : Str
  system : Str
  description : Str
  category : Str
  synonyms : List Str
  deriving DecidableEq, Repr

/-- The state of `MedicalCodeManager`: `codes[system][code]` and the text
search index `search_index[term] = [(system, code), ...]`. -/
structure CodeMgr where
  codes : List (Str × List (Str × CodeEntry))
  searchIndex : List (Str × List (Str × Str))
  deriving DecidableEq, Repr

/-- `add_code`: store the code and index its lowercased description and
synonyms. -/
def addCode (mgr : CodeMgr) (c : CodeEntry) : CodeMgr :=
  let codes1 :=
    dictInsert c.system (dictInsert c.code c ((alookup c.system mgr.codes).getD []))
      mgr.codes
  let searchTerms := lowerStr c.description :: c.synonyms.map lowerStr
  let idx := searchTerms.foldl
    (fun d term => dictInsert term ((alookup term d).getD [] ++ [(c.system, c.code)]) d)
    mgr.searchIndex
  ⟨codes1, idx⟩

/-- The codes loaded by `_initialize_basic_codes` (ICD-10-CM, CPT, HCPCS,
in source order). -/
def basicCodes : List CodeEntry :=
  [⟨S "I10", S "ICD-10-CM", S "Essential (primary) hypertension", S "cardiovascular",
     [S "hypertension", S "high blood pressure", S "htn"]⟩,
   ⟨S "E11.9", S "ICD-10-CM", S "Type 2 diabetes mellitus without complications",
     S "endocrine", [S "diabetes", S "diabetes mellitus", S "dm", S "type 2 diabetes"]⟩,
   ⟨S "I21.9", S "ICD-10-CM", S "Acute myocardial infarction, unspecified",
     S "cardiovascular", [S "heart attack", S "myocardial infarction", S "mi", S "acute mi"]⟩,
   ⟨S "J44.1", S "ICD-10-CM",
     S "Chronic obstructive pulmonary disease with acute exacerbation", S "respiratory",
     [S "copd", S "chronic obstructive pulmonary disease", S "emphysema"]⟩,
   ⟨S "N18.6", S "ICD-10-CM", S "End stage renal disease", S "genitourinary",
     [S "kidney failure", S "renal failure", S "esrd", S "end stage renal disease"]⟩,
   ⟨S "F32.9", S "ICD-10-CM",
     S "Major depressive disorder, single episode, unspecified", S "mental",
     [S "depression", S "major depression", S "depressive disorder"]⟩,
   ⟨S "M79.3", S "ICD-10-CM", S "Panniculitis, unspecified", S "musculoskeletal",
     [S "muscle pain", S "myalgia", S "muscle ache"]⟩,
   ⟨S "R50.9", S "ICD-10-CM", S "Fever, unspecified", S "symptoms",
     [S "fever", S "pyrexia", S "elevated temperature"]⟩,
   ⟨S "G43.909", S "ICD-10-CM",
     S "Migraine, unspecified, not intractable, without status migrainosus",
     S "neurological", [S "migraine", S "headache", S "severe headache"]⟩,
   ⟨S "J18.9", S "ICD-10-CM", S "Pneumonia, unspecified organism", S "respiratory",
     [S "pneumonia", S "lung infection", S "respiratory infection"]⟩,
   ⟨S "99213", S "CPT", S "Office or other outpatient visit for evaluation and management",
     S "evaluation", [S "office visit", S "outpatient visit", S "consultation"]⟩,
   ⟨S "99214", S "CPT", S "Office or other outpatient visit for evaluation and management",
     S "evaluation", [S "detailed office visit", S "comprehensive visit"]⟩,
   ⟨S "93000", S "CPT", S "Electrocardiogram, routine ECG with at least 12 leads",
     S "diagnostic", [S "ecg", S "ekg", S "electrocardiogram", S "heart test"]⟩,
   ⟨S "80053", S "CPT", S "Comprehensive metabolic panel", S "laboratory",
     [S "cmp", S "metabolic panel", S "blood chemistry", S "basic metabolic panel"]⟩,
   ⟨S "85025", S "CPT", S "Blood count; complete (CBC), automated", S "laboratory",
     [S "cbc", S "complete blood count", S "blood count", S "full blood count"]⟩,
   ⟨S "36415", S "CPT", S "Collection of venous blood by venipuncture", S "procedure",
     [S "blood draw", S "venipuncture", S "phlebotomy"]⟩,
   ⟨S "71020", S "CPT", S "Radiologic examination, chest, 2 views", S "radiology",
     [S "chest x-ray", S "chest xray", S "cxr", S "chest radiograph"]⟩,
   ⟨S "73060", S "CPT", S "Radiologic examination; knee, 1 or 2 views", S "radiology",
     [S "knee x-ray", S "knee xray", S "knee radiograph"]⟩,
   ⟨S "76700", S "CPT", S "Ultrasound, abdominal, real time with image documentation",
     S "radiology", [S "abdominal ultrasound", S "ultrasound abdomen", S "abdominal us"]⟩,
   ⟨S "90471", S "CPT", S "Immunization administration", S "immunization",
     [S "vaccination", S "immunization", S "vaccine administration", S "shot"]⟩,
   ⟨S "J7050", S "HCPCS", S "Infusion, normal saline solution, 1000 cc", S "medication",
     [S "normal saline", S "saline infusion", S "iv saline"]⟩,
   ⟨S "A4253", S "HCPCS", S "Blood glucose test or reagent strips", S "supplies",
     [S "glucose strips", S "blood sugar strips", S "test strips"]⟩,
   ⟨S "E0424", S "HCPCS", S "Stationary compressed gaseous oxygen system", S "equipment",
     [S "oxygen concentrator", S "oxygen system", S "home oxygen"]⟩]

/-- The manager state after `__init__`. -/
def initialCodeMgr : CodeMgr := basicCodes.foldl addCode ⟨[], []⟩

/-- One entry of the ranked result list of `search_codes`. -/
structure SearchResult where
  code : Str
  system : Str
  description : Str
  category : Str
  confidence : ℚ
  matchType : Str
  deriving DecidableEq, Repr

/-- The deduplication key `f"{system}:{code}"`. -/
def resKey (r : SearchResult) : Str := r.system ++ ':' :: r.code

/-- `self.codes[system_name][code]`, with a `KeyError` surfaced as
`Except.error` (the Python method's outer `except` turns it into an empty
result list). -/
def lookupIndexed (mgr : CodeMgr) (sysName code : Str) : Except Unit CodeEntry :=
  match alookup sysName mgr.codes with
  | none => Except.error ()
  | some d =>
    match alookup code d with
    | none => Except.error ()
    | some c => Except.ok c

/-- The exact-match loop of `search_codes`: every indexed `(system, code)`
under the query key that passes the optional system filter becomes a
confidence-1.0 `'exact'` result. -/
def collectExact (mgr : CodeMgr) (sysFilter : Option Str) :
    List (Str × Str) → Except Unit (List SearchResult)
  | [] => Except.ok []
  | (sysName, code) :: rest =>
    if sysFilter = none ∨ sysFilter = some sysName then
      match lookupIndexed mgr sysName code with
      | Except.error _ => Except.error ()
      | Except.ok cobj =>
        match collectExact mgr sysFilter rest with
        | Except.error _ => Except.error ()
        | Except.ok rs =>
          Except.ok (⟨cobj.code, cobj.system, cobj.description, cobj.category,
            1, S "exact"⟩ :: rs)
    else collectExact mgr sysFilter rest

/-- The partial-match loop: every index term strictly containing the query
contributes its codes with confidence `len(query)/len(term)` and match
type `'partial'`. -/
def collectPartialTerm (mgr : CodeMgr) (sysFilter : Option Str) (conf : ℚ) :
    List (Str × Str) → Except Unit (List SearchResult)
  | [] => Except.ok []
  | (sysName, code) :: rest =>
    if sysFilter = none ∨ sysFilter = some sysName then
      match lookupIndexed mgr sysName code with
      | Except.error _ => Except.error ()
      | Except.ok cobj =>
        match collectPartialTerm mgr sysFilter conf rest with
        | Except.error _ => Except.error ()
        | Except.ok rs =>
          Except.ok (⟨cobj.code, cobj.system, cobj.description, cobj.category,
            conf, S "partial"⟩ :: rs)
    else collectPartialTerm mgr sysFilter conf rest

def collectPartial (mgr : CodeMgr) (sysFilter : Option Str) (ql : Str) :
    List (Str × List (Str × Str)) → Except Unit (List SearchResult)
  | [] => Except.ok []
  | (term, codeList) :: rest =>
    if strContains ql term ∧ ql ≠ term then
      match collectPartialTerm mgr sysFilter (mkRat ql.length term.length) codeList with
      | Except.error _ => Except.error ()
      | Except.ok rs =>
        match collectPartial mgr sysFilter ql rest with
        | Except.error _ => Except.error ()
        | Except.ok rs' => Except.ok (rs ++ rs')
    else collectPartial mgr sysFilter ql rest

/-- The raw result list before deduplication (exact results then partial
results, in scan order). -/
def searchResultsRaw (mgr : CodeMgr) (query : Str) (sysFilter : Option Str) :
    Except Unit (List SearchResult) :=
  let ql := lowerStr query
  let exact :=
    match alookup ql mgr.searchIndex with
    | some lst => collectExact mgr sysFilter lst
    | none => Except.ok []
  match exact with
  | Except.error _ => Except.error ()
  | Except.ok exactRs =>
    match collectPartial mgr sysFilter ql mgr.searchIndex with
    | Except.error _ => Except.error ()
    | Except.ok partialRs => Except.ok (exactRs ++ partialRs)

/-- The deduplication dictionary update: replace in place when the new
result's confidence is strictly higher, else keep; `none` when the key is
new. -/
def updResult (r : SearchResult) : List SearchResult → Option (List SearchResult)
  | [] => none
  | x :: rest =>
    if resKey x = resKey r then
      some (if x.confidence < r.confidence then r :: rest else x :: rest)
    else (updResult r rest).map (x :: ·)

def dedupStep (acc : List SearchResult) (r : SearchResult) : List SearchResult :=
  match updResult r acc with
  | none => acc ++ [r]
  | some acc' => acc'

def dedupResults (rs : List SearchResult) : List SearchResult :=
  rs.foldl dedupStep []

/-- `sorted(..., key=confidence, reverse=True)` (stable). -/
def sortByConfDesc (rs : List SearchResult) : List SearchResult :=
  rs.mergeSort (fun a b => decide (b.confidence ≤ a.confidence))

/-- `search_codes(query, system, limit)`. -/
def searchCodes (mgr : CodeMgr) (query : Str) (sysFilter : Option Str)
    (limit : Nat) : List SearchResult :=
  match searchResultsRaw mgr query sysFilter with
  | Except.error _ => []
  | Except.ok rs => (sortByConfDesc (dedupResults rs)).take limit

theorem updResult_none_spec (r : SearchResult) :
    ∀ acc, updResult r acc = none → ∀ x ∈ acc, resKey x ≠ resKey r := by
  intro acc
  induction acc with
  | nil => intro _ x hx; cases hx
  | cons a rest ih =>
    intro hnone x hx
    by_cases hk : resKey a = resKey r
    · simp [updResult, hk] at hnone
    · simp only [updResult, hk, if_neg, if_false] at hnone
      rw [Option.map_eq_none'] at hnone
      rw [List.mem_cons] at hx
      rcases hx with hx | hx
      · rw [hx]; exact hk
      · exact ih hnone x hx

theorem updResult_some_spec (r : SearchResult) :
    ∀ acc acc', updResult r acc = some acc' →
      ∃ pre a₀ suf, acc = pre ++ a₀ :: suf ∧
        (∀ p ∈ pre, resKey p ≠ resKey r) ∧ resKey a₀ = resKey r ∧
        ((a₀.confidence < r.confidence ∧ acc' = pre ++ r :: suf) ∨
         (¬ a₀.confidence < r.confidence ∧ acc' = acc)) := by
  intro acc
  induction acc with
  | nil => intro acc' h; cases h
  | cons a rest ih =>
    intro acc' h
    by_cases hk : resKey a = resKey r
    · rcases lt_or_le a.confidence r.confidence with hc | hc
      · simp [updResult, hk, hc] at h
        exact ⟨[], a, rest, rfl, by simp, hk, Or.inl ⟨hc, h.symm⟩⟩
      · simp [updResult, hk, not_lt.mpr hc] at h
        exact ⟨[], a, rest, rfl, by simp, hk,
          Or.inr ⟨not_lt.mpr hc, by rw [← h]⟩⟩
    · simp only [updResult, hk, if_neg, if_false] at h
      rw [Option.map_eq_some'] at h
      obtain ⟨res', hres', hcons⟩ := h
      obtain ⟨pre, a₀, suf, hsplit, hpre, hkey, hcase⟩ := ih res' hres'
      refine ⟨a :: pre, a₀, suf, by simp [hsplit], ?_, hkey, ?_⟩
      · intro p hp
        rw [List.mem_cons] at hp
        rcases hp with hp | hp
        · rw [hp]; exact hk
        · exact hpre p hp
      · rcases hcase with ⟨hc, hres⟩ | ⟨hc, hres⟩
        · exact Or.inl ⟨hc, by simp [← hcons, hres]⟩
        · exact Or.inr ⟨hc, by simp [← hcons, hres, hsplit]⟩

theorem dedup_fold_spec :
    ∀ (rs acc seen : List SearchResult),
      acc.Pairwise (fun a b => resKey a ≠ resKey b) →
      (∀ x ∈ acc, x ∈ seen ∧
        ∀ s ∈ seen, resKey s = resKey x → s.confidence ≤ x.confidence) →
      (∀ s ∈ seen, ∃ x ∈ acc, resKey x = resKey s) →
      (rs.foldl dedupStep acc).Pairwise (fun a b => resKey a ≠ resKey b) ∧
      (∀ x ∈ rs.foldl dedupStep acc, x ∈ seen ++ rs ∧
        ∀ s ∈ seen ++ rs, resKey s = resKey x → s.confidence ≤ x.confidence)
  | [], acc, seen, hpw, h1, _ => by
    refine ⟨hpw, ?_⟩
    intro x hx
    obtain ⟨hmem, hbound⟩ := h1 x hx
    exact ⟨by simpa using hmem, fun s hs => hbound s (by simpa using hs)⟩
  | r :: rest, acc, seen, hpw, h1, h2 => by
    rw [List.foldl_cons]
    have hassoc : seen ++ r :: rest = (seen ++ [r]) ++ rest := by simp
    have hmain := dedup_fold_spec rest (dedupStep acc r) (seen ++ [r]) ?_ ?_ ?_
    · rw [hassoc]
      exact hmain
    -- pairwise keys for the updated accumulator
    · unfold dedupStep
      cases hu : updResult r acc with
      | none =>
        rw [List.pairwise_append]
        refine ⟨hpw, List.pairwise_singleton _ _, ?_⟩
        intro x hx y hy
        rw [List.mem_singleton] at hy
        rw [hy]
        exact updResult_none_spec r acc hu x hx
      | some acc' =>
        obtain ⟨pre, a₀, suf, hsplit, hpre, hkey, hcase⟩ :=
          updResult_some_spec r acc acc' hu
        rcases hcase with ⟨_, hres⟩ | ⟨_, hres⟩
        · subst hres
          subst hsplit
          rw [List.pairwise_append] at hpw ⊢
          obtain ⟨hpwpre, hpwcons, hcross⟩ := hpw
          rw [List.pairwise_cons] at hpwcons ⊢
          obtain ⟨ha₀suf, hpwsuf⟩ := hpwcons
          refine ⟨hpwpre, ⟨?_, hpwsuf⟩, ?_⟩
          · intro b hb
            rw [← hkey] at *
            exact ha₀suf b hb
          · intro a ha b hb
            rw [List.mem_cons] at hb
            rcases hb with hb | hb
            · rw [hb, ← hkey]
              exact hcross a ha a₀ (List.mem_cons_self _ _)
            · exact hcross a ha b (List.mem_cons_of_mem _ hb)
        · subst hres; exact hpw
    -- membership/maximality hypothesis for the updated accumulator
    · unfold dedupStep
      cases hu : updResult r acc with
      | none =>
        intro x hx
        rcases List.mem_append.mp hx with hx | hx
        · obtain ⟨hmem, hbound⟩ := h1 x hx
          refine ⟨List.mem_append_left _ hmem, ?_⟩
          intro s hs hk
          rcases List.mem_append.mp hs with hs | hs
          · exact hbound s hs hk
          · rw [List.mem_singleton] at hs
            replace hs := hs.symm
            subst hs
            exact absurd hk.symm (updResult_none_spec r acc hu x hx)
        · rw [List.mem_singleton] at hx
          replace hx := hx.symm
          subst hx
          refine ⟨List.mem_append_right _ (List.mem_singleton.mpr rfl), ?_⟩
          intro s hs hk
          rcases List.mem_append.mp hs with hs | hs
          · obtain ⟨a, ha, hka⟩ := h2 s hs
            exact absurd (hka.trans hk) (updResult_none_spec r acc hu a ha)
          · rw [List.mem_singleton] at hs
            replace hs := hs.symm
            subst hs
            exact le_refl _
      | some acc' =>
        obtain ⟨pre, a₀, suf, hsplit, hpre, hkey, hcase⟩ :=
          updResult_some_spec r acc acc' hu
        have hkeyuniq : ∀ x ∈ acc, resKey x = resKey r → x = a₀ := by
          intro x hx hk
          subst hsplit
          rw [List.pairwise_append] at hpw
          obtain ⟨_, hpwcons, hcross⟩ := hpw
          rw [List.pairwise_cons] at hpwcons
          obtain ⟨ha₀suf, _⟩ := hpwcons
          rcases List.mem_append.mp hx with hx | hx
          · exact absurd (hk.trans hkey.symm)
              (hcross x hx a₀ (List.mem_cons_self _ _))
          · rw [List.mem_cons] at hx
            rcases hx with hx | hx
            · exact hx
            · exact absurd (hk.trans hkey.symm).symm (ha₀suf x hx)
        rcases hcase with ⟨hlt, hres⟩ | ⟨hge, hres⟩
        · subst hres
          intro x hx
          have hxsplit : x ∈ pre ++ suf ∨ x = r := by
            rcases List.mem_append.mp hx with hx | hx
            · exact Or.inl (List.mem_append_left _ hx)
            · rw [List.mem_cons] at hx
              rcases hx with hx | hx
              · exact Or.inr hx
              · exact Or.inl (List.mem_append_right _ hx)
          rcases hxsplit with hx' | hx'
          · have hxacc : x ∈ acc := by
              rw [hsplit]
              rcases List.mem_append.mp hx' with hx' | hx'
              · exact List.mem_append_left _ hx'
              · exact List.mem_append_right _ (List.mem_cons_of_mem _ hx')
            obtain ⟨hmem, hbound⟩ := h1 x hxacc
            refine ⟨List.mem_append_left _ hmem, ?_⟩
            intro s hs hk
            rcases List.mem_append.mp hs with hs | hs
            · exact hbound s hs hk
            · rw [List.mem_singleton] at hs
              subst hs
              replace hk := (hkeyuniq x hxacc hk.symm).symm
              subst hk
              exfalso
              rw [hsplit] at hpw
              rw [List.pairwise_append] at hpw
              obtain ⟨_, hpwcons, hcross⟩ := hpw
              rw [List.pairwise_cons] at hpwcons
              obtain ⟨ha₀suf, _⟩ := hpwcons
              rcases List.mem_append.mp hx' with hx' | hx'
              · exact hcross a₀ hx' a₀ (List.mem_cons_self _ _) rfl
              · exact ha₀suf a₀ hx' rfl
          · replace hx' := hx'.symm
            subst hx'
            refine ⟨List.mem_append_right _ (List.mem_singleton.mpr rfl), ?_⟩
            intro s hs hk
            rcases List.mem_append.mp hs with hs | hs
            · have ha₀acc : a₀ ∈ acc := by
                rw [hsplit]
                exact List.mem_append_right _ (List.mem_cons_self _ _)
              obtain ⟨_, hbound₀⟩ := h1 a₀ ha₀acc
              have := hbound₀ s hs (hk.trans hkey.symm)
              linarith
            · rw [List.mem_singleton] at hs
              replace hs := hs.symm
              subst hs
              exact le_refl _
        · subst hres
          intro x hx
          obtain ⟨hmem, hbound⟩ := h1 x hx
          refine ⟨List.mem_append_left _ hmem, ?_⟩
          intro s hs hk
          rcases List.mem_append.mp hs with hs | hs
          · exact hbound s hs hk
          · rw [List.mem_singleton] at hs
            subst hs
            have := hkeyuniq x hx hk.symm
            subst this
            exact not_lt.mp hge
    -- every seen key still has a representative
    · unfold dedupStep
      cases hu : updResult r acc with
      | none =>
        intro s hs
        rcases List.mem_append.mp hs with hs | hs
        · obtain ⟨a, ha, hka⟩ := h2 s hs
          exact ⟨a, List.mem_append_left _ ha, hka⟩
        · rw [List.mem_singleton] at hs
          replace hs := hs.symm
          subst hs
          exact ⟨r, List.mem_append_right _ (List.mem_singleton.mpr rfl), rfl⟩
      | some acc' =>
        obtain ⟨pre, a₀, suf, hsplit, hpre, hkey, hcase⟩ :=
          updResult_some_spec r acc acc' hu
        rcases hcase with ⟨_, hres⟩ | ⟨_, hres⟩
        · subst hres
          intro s hs
          rcases List.mem_append.mp hs with hs | hs
          · obtain ⟨a, ha, hka⟩ := h2 s hs
            rw [hsplit] at ha
            rcases List.mem_append.mp ha with ha | ha
            · exact ⟨a, List.mem_append_left _ ha, hka⟩
            · rw [List.mem_cons] at ha
              rcases ha with ha | ha
              · replace ha := ha.symm
                subst ha
                exact ⟨r, List.mem_append_right _ (List.mem_cons_self _ _),
                  hkey.symm.trans hka⟩
              · exact ⟨a,
                  List.mem_append_right _ (List.mem_cons_of_mem _ ha), hka⟩
          · rw [List.mem_singleton] at hs
            replace hs := hs.symm
            subst hs
            exact ⟨r, List.mem_append_right _ (List.mem_cons_self _ _), rfl⟩
        · subst hres
          intro s hs
          rcases List.mem_append.mp hs with hs | hs
          · exact h2 s hs
          · rw [List.mem_singleton] at hs
            subst hs
            refine ⟨a₀, ?_, hkey⟩
            rw [hsplit]
            exact List.mem_append_right _ (List.mem_cons_self _ _)

theorem dedupResults_spec (rs : List SearchResult) :
    (dedupResults rs).Pairwise (fun a b => resKey a ≠ resKey b) ∧
    (∀ x ∈ dedupResults rs, x ∈ rs ∧
      ∀ s ∈ rs, resKey s = resKey x → s.confidence ≤ x.confidence) := by
  have := dedup_fold_spec rs [] [] List.Pairwise.nil
    (by intro x hx; cases hx) (by intro s hs; cases hs)
  simpa [dedupResults] using this

theorem mem_collectExact {mgr : CodeMgr} {sysFilter : Option Str} :
    ∀ {entries : List (Str × Str)} {out : List SearchResult},
      collectExact mgr sysFilter entries = Except.ok out →
      ∀ r ∈ out, r.confidence = 1 ∧ r.matchType = S "exact" := by
  intro entries
  induction entries with
  | nil =>
    intro out h r hr
    simp only [collectExact] at h
    rw [Except.ok.injEq] at h
    rw [← h] at hr
    cases hr
  | cons pr rest ih =>
    intro out h r hr
    obtain ⟨sysName, code⟩ := pr
    by_cases hf : sysFilter = none ∨ sysFilter = some sysName
    · rw [collectExact, if_pos hf] at h
      cases hl : lookupIndexed mgr sysName code with
      | error e => rw [hl] at h; cases h
      | ok cobj =>
        rw [hl] at h
        cases hrest : collectExact mgr sysFilter rest with
        | error e => rw [hrest] at h; cases h
        | ok rs =>
          rw [hrest] at h
          rw [Except.ok.injEq] at h
          rw [← h] at hr
          rw [List.mem_cons] at hr
          rcases hr with hr | hr
          · rw [hr]; exact ⟨rfl, rfl⟩
          · exact ih hrest r hr
    · rw [collectExact, if_neg hf] at h
      exact ih h r hr

theorem mem_collectPartialTerm {mgr : CodeMgr} {sysFilter : Option Str} {conf : ℚ} :
    ∀ {entries : List (Str × Str)} {out : List SearchResult},
      collectPartialTerm mgr sysFilter conf entries = Except.ok out →
      ∀ r ∈ out, r.confidence = conf ∧ r.matchType = S "partial" := by
  intro entries
  induction entries with
  | nil =>
    intro out h r hr
    simp only [collectPartialTerm] at h
    rw [Except.ok.injEq] at h
    rw [← h] at hr
    cases hr
  | cons pr rest ih =>
    intro out h r hr
    obtain ⟨sysName, code⟩ := pr
    by_cases hf : sysFilter = none ∨ sysFilter = some sysName
    · rw [collectPartialTerm, if_pos hf] at h
      cases hl : lookupIndexed mgr sysName code with
      | error e => rw [hl] at h; cases h
      | ok cobj =>
        rw [hl] at h
        cases hrest : collectPartialTerm mgr sysFilter conf rest with
        | error e => rw [hrest] at h; cases h
        | ok rs =>
          rw [hrest] at h
          rw [Except.ok.injEq] at h
          rw [← h] at hr
          rw [List.mem_cons] at hr
          rcases hr with hr | hr
          · rw [hr]; exact ⟨rfl, rfl⟩
          · exact ih hrest r hr
    · rw [collectPartialTerm, if_neg hf] at h
      exact ih h r hr

theorem mem_collectPartial {mgr : CodeMgr} {sysFilter : Option Str} {ql : Str} :
    ∀ {idx : List (Str × List (Str × Str))} {out : List SearchResult},
      collectPartial mgr sysFilter ql idx = Except.ok out →
      ∀ r ∈ out, r.matchType = S "partial" ∧
        ∃ term, (∃ cl, (term, cl) ∈ idx) ∧ strContains ql term = true ∧
          ql ≠ term ∧ r.confidence = mkRat ql.length term.length := by
  intro idx
  induction idx with
  | nil =>
    intro out h r hr
    simp only [collectPartial] at h
    rw [Except.ok.injEq] at h
    rw [← h] at hr
    cases hr
  | cons pr rest ih =>
    intro out h r hr
    obtain ⟨term, codeList⟩ := pr
    by_cases hc : strContains ql term ∧ ql ≠ term
    · rw [collectPartial, if_pos hc] at h
      cases ht : collectPartialTerm mgr sysFilter (mkRat ql.length term.length) codeList with
      | error e => rw [ht] at h; cases h
      | ok rs =>
        rw [ht] at h
        cases hrest : collectPartial mgr sysFilter ql rest with
        | error e => rw [hrest] at h; cases h
        | ok rs' =>
          rw [hrest] at h
          rw [Except.ok.injEq] at h
          rw [← h] at hr
          rcases List.mem_append.mp hr with hr | hr
          · obtain ⟨hconf, hmt⟩ := mem_collectPartialTerm ht r hr
            exact ⟨hmt, term, ⟨codeList, List.mem_cons_self _ _⟩, hc.1, hc.2, hconf⟩
          · obtain ⟨hmt, t, ⟨cl, hcl⟩, h1, h2, h3⟩ := ih hrest r hr
            exact ⟨hmt, t, ⟨cl, List.mem_cons_of_mem _ hcl⟩, h1, h2, h3⟩
    · rw [collectPartial, if_neg hc] at h
      obtain ⟨hmt, t, ⟨cl, hcl⟩, h1, h2, h3⟩ := ih h r hr
      exact ⟨hmt, t, ⟨cl, List.mem_cons_of_mem _ hcl⟩, h1, h2, h3⟩

theorem mem_searchResultsRaw {mgr : CodeMgr} {query : Str} {sysFilter : Option Str}
    {raw : List SearchResult}
    (h : searchResultsRaw mgr query sysFilter = Except.ok raw) :
    ∀ r ∈ raw,
      (r.confidence = 1 ∧ r.matchType = S "exact") ∨
      (r.matchType = S "partial" ∧ ∃ term,
        (∃ cl, (term, cl) ∈ mgr.searchIndex) ∧
        strContains (lowerStr query) term = true ∧ lowerStr query ≠ term ∧
        r.confidence = mkRat (lowerStr query).length term.length) := by
  intro r hr
  simp only [searchResultsRaw] at h
  cases hex : (match alookup (lowerStr query) mgr.searchIndex with
    | some lst => collectExact mgr sysFilter lst
    | none => Except.ok []) with
  | error e => rw [hex] at h; cases h
  | ok exactRs =>
    rw [hex] at h
    cases hpa : collectPartial mgr sysFilter (lowerStr query) mgr.searchIndex with
    | error e => rw [hpa] at h; cases h
    | ok partialRs =>
      rw [hpa] at h
      rw [Except.ok.injEq] at h
      rw [← h] at hr
      rcases List.mem_append.mp hr with hr | hr
      · left
        cases hidx : alookup (lowerStr query) mgr.searchIndex with
        | none =>
          rw [hidx] at hex
          rw [Except.ok.injEq] at hex
          rw [← hex] at hr
          cases hr
        | some lst =>
          rw [hidx] at hex
          exact mem_collectExact hex r hr
      · right
        exact mem_collectPartial hpa r hr

theorem sortByConfDesc_sorted (rs : List SearchResult) :
    (sortByConfDesc rs).Pairwise (fun a b => b.confidence ≤ a.confidence) := by
  have h := @List.sorted_mergeSort SearchResult
    (fun a b => decide (b.confidence ≤ a.confidence))
    (fun a b c hab hbc => by
      rw [decide_eq_true_iff] at *
      exact le_trans hbc hab)
    (fun a b => by
      rcases le_total a.confidence b.confidence with h | h <;> simp [h])
    rs
  exact h.imp (fun {a b} hab => of_decide_eq_true hab)

theorem sortByConfDesc_perm (rs : List SearchResult) :
    List.Perm (sortByConfDesc rs) rs :=
  List.mergeSort_perm rs _

/-- **C7.** `search_codes` returns at most `limit` results with pairwise
distinct `(system, code)` keys (keeping, for each key, a result of maximal
confidence among all raw matches), sorted by non-increasing confidence;
every result is either an exact index hit (confidence 1.0, match type
`'exact'`) or a partial hit on an index term strictly containing the query
(confidence `len(query)/len(term)`, match type `'partial'`); and
`search_codes("hypertension")` on the initial code manager returns the
ICD-10-CM code I10 ranked first with confidence 1.0 and match type
`'exact'`. -/
theorem search_codes_ranked (mgr : CodeMgr) (query : Str)
    (sysFilter : Option Str) (limit : Nat) :
    (searchCodes mgr query sysFilter limit).length ≤ limit ∧
    (searchCodes mgr query sysFilter limit).Pairwise
      (fun a b => resKey a ≠ resKey b) ∧
    (searchCodes mgr query sysFilter limit).Pairwise
      (fun a b => b.confidence ≤ a.confidence) ∧
    (∀ raw, searchResultsRaw mgr query sysFilter = Except.ok raw →
      ∀ r ∈ searchCodes mgr query sysFilter limit,
        r ∈ raw ∧
        (∀ s ∈ raw, resKey s = resKey r → s.confidence ≤ r.confidence) ∧
        ((r.confidence = 1 ∧ r.matchType = S "exact") ∨
         (r.matchType = S "partial" ∧ ∃ term,
           (∃ cl, (term, cl) ∈ mgr.searchIndex) ∧
           strContains (lowerStr query) term = true ∧ lowerStr query ≠ term ∧
           r.confidence = mkRat (lowerStr query).length term.length))) ∧
    searchCodes initialCodeMgr (S "hypertension") none 10 =
      [⟨S "I10", S "ICD-10-CM", S "Essential (primary) hypertension",
        S "cardiovascular", 1, S "exact"⟩] := by
  refine ⟨?_, ?_, ?_, ?_, ?_⟩
  · unfold searchCodes
    cases searchResultsRaw mgr query sysFilter with
    | error e => simp
    | ok rs => exact List.length_take_le _ _
  · unfold searchCodes
    cases searchResultsRaw mgr query sysFilter with
    | error e => exact List.Pairwise.nil
    | ok rs =>
      refine List.Pairwise.sublist (List.take_sublist _ _) ?_
      refine ((sortByConfDesc_perm (dedupResults rs)).pairwise_iff ?_).mpr
        (dedupResults_spec rs).1
      intro a b hab
      exact fun hk => hab hk.symm
  · unfold searchCodes
    cases searchResultsRaw mgr query sysFilter with
    | error e => exact List.Pairwise.nil
    | ok rs =>
      exact List.Pairwise.sublist (List.take_sublist _ _)
        (sortByConfDesc_sorted (dedupResults rs))
  · intro raw hraw r hr
    unfold searchCodes at hr
    rw [hraw] at hr
    have hrsort : r ∈ sortByConfDesc (dedupResults raw) :=
      (List.take_sublist _ _).subset hr
    have hrdedup : r ∈ dedupResults raw :=
      (sortByConfDesc_perm (dedupResults raw)).subset hrsort
    obtain ⟨hrraw, hmax⟩ := (dedupResults_spec raw).2 r hrdedup
    exact ⟨hrraw, hmax, mem_searchResultsRaw hraw r hrraw⟩
  · have hraw : searchResultsRaw initialCodeMgr (S "hypertension") none =
        Except.ok
          [⟨S "I10", S "ICD-10-CM", S "Essential (primary) hypertension",
            S "cardiovascular", 1, S "exact"⟩,
           ⟨S "I10", S "ICD-10-CM", S "Essential (primary) hypertension",
            S "cardiovascular", mkRat 12 32, S "partial"⟩] := by
      rfl
    unfold searchCodes
    rw [hraw]
    show (sortByConfDesc (dedupResults
      [⟨S "I10", S "ICD-10-CM", S "Essential (primary) hypertension",
        S "cardiovascular", 1, S "exact"⟩,
       ⟨S "I10", S "ICD-10-CM", S "Essential (primary) hypertension",
        S "cardiovascular", mkRat 12 32, S "partial"⟩])).take 10 =
      [⟨S "I10", S "ICD-10-CM", S "Essential (primary) hypertension",
        S "cardiovascular", 1, S "exact"⟩]
    have hd : dedupResults
        [⟨S "I10", S "ICD-10-CM", S "Essential (primary) hypertension",
          S "cardiovascular", 1, S "exact"⟩,
         ⟨S "I10", S "ICD-10-CM", S "Essential (primary) hypertension",
          S "cardiovascular", mkRat 12 32, S "partial"⟩] =
        [⟨S "I10", S "ICD-10-CM", S "Essential (primary) hypertension",
          S "cardiovascular", 1, S "exact"⟩] := by
      rfl
    rw [hd]
    unfold sortByConfDesc
    rw [List.mergeSort_singleton]
    rfl

/-- Witness for C7 at the Scenario E instance: the search returns a single
result (≤ limit) and it is the I10 exact match. -/
theorem search_codes_ranked_witness :
    (searchCodes initialCodeMgr (S "hypertension") none 10).length ≤ 10 ∧
    searchCodes initialCodeMgr (S "hypertension") none 10 =
      [⟨S "I10", S "ICD-10-CM", S "Essential (primary) hypertension",
        S "cardiovascular", 1, S "exact"⟩] :=
  ⟨(search_codes_ranked initialCodeMgr (S "hypertension") none 10).1,
   (search_codes_ranked initialCodeMgr (S "hypertension") none 10).2.2.2.2⟩

theorem resolveInsert_none_spec (e : MedEntity) :
    ∀ (l : List MedEntity), resolveInsert e l = none →
      ∀ m ∈ l, entityOverlap e m = false := by
  intro l
  induction l with
  | nil => intro _ m hm; cases hm
  | cons ex rest ih =>
    intro hnone m hm
    by_cases hov : entityOverlap e ex
    · simp [resolveInsert, hov] at hnone
      rcases lt_or_le ex.confidence e.confidence with h | h
      · simp [h] at hnone
      · simp [not_lt.mpr h] at hnone
    · simp only [resolveInsert, hov, if_neg, Bool.false_eq_true, if_false] at hnone
      rw [Option.map_eq_none'] at hnone
      rw [List.mem_cons] at hm
      rcases hm with hm | hm
      · subst hm; exact Bool.eq_false_iff.mpr hov
      · exact ih hnone m hm

theorem resolveInsert_some_spec (e : MedEntity) :
    ∀ (l res : List MedEntity), resolveInsert e l = some res →
      ∃ pre ex suf, l = pre ++ ex :: suf ∧
        (∀ p ∈ pre, entityOverlap e p = false) ∧ entityOverlap e ex = true ∧
        ((ex.confidence < e.confidence ∧ res = pre ++ (suf ++ [e])) ∨
         (¬ ex.confidence < e.confidence ∧ res = l)) := by
  intro l
  induction l with
  | nil => intro res h; simp [resolveInsert] at h
  | cons ex rest ih =>
    intro res h
    by_cases hov : entityOverlap e ex
    · rcases lt_or_le ex.confidence e.confidence with hc | hc
      · simp [resolveInsert, hov, hc] at h
        exact ⟨[], ex, rest, rfl, by simp, hov, Or.inl ⟨hc, h.symm⟩⟩
      · simp [resolveInsert, hov, not_lt.mpr hc] at h
        exact ⟨[], ex, rest, rfl, by simp, hov,
          Or.inr ⟨not_lt.mpr hc, by rw [← h]⟩⟩
    · simp only [resolveInsert, hov, Bool.false_eq_true, if_false] at h
      rw [Option.map_eq_some'] at h
      obtain ⟨res', hres', hcons⟩ := h
      obtain ⟨pre, ex', suf, hsplit, hpre, hov', hcase⟩ := ih res' hres'
      refine ⟨ex :: pre, ex', suf, by simp [hsplit], ?_, hov', ?_⟩
      · intro p hp
        rw [List.mem_cons] at hp
        rcases hp with hp | hp
        · subst hp; exact Bool.eq_false_iff.mpr hov
        · exact hpre p hp
      · rcases hcase with ⟨hc, hres⟩ | ⟨hc, hres⟩
        · exact Or.inl ⟨hc, by simp [← hcons, hres]⟩
        · exact Or.inr ⟨hc, by simp [← hcons, hres, hsplit]⟩

theorem mem_resolveStep {norm : List MedEntity} {e m : MedEntity}
    (hm : m ∈ resolveStep norm e) : m ∈ norm ∨ m = e := by
  unfold resolveStep at hm
  cases hi : resolveInsert e norm with
  | none =>
    rw [hi] at hm
    rcases List.mem_append.mp hm with h | h
    · exact Or.inl h
    · exact Or.inr (List.mem_singleton.mp h)
  | some res =>
    rw [hi] at hm
    obtain ⟨pre, ex, suf, hsplit, _, _, hcase⟩ := resolveInsert_some_spec e norm res hi
    rcases hcase with ⟨_, hres⟩ | ⟨_, hres⟩
    · subst hres
      rcases List.mem_append.mp hm with h | h
      · exact Or.inl (hsplit ▸ List.mem_append_left _ h)
      · rcases List.mem_append.mp h with h | h
        · exact Or.inl (hsplit ▸ List.mem_append_right _ (List.mem_cons_of_mem _ h))
        · exact Or.inr (List.mem_singleton.mp h)
    · subst hres; exact Or.inl hm

theorem not_overlap_disjoint {a b : MedEntity} (h : entityOverlap a b = false) :
    spansDisjoint a b := by
  unfold entityOverlap at h
  unfold spansDisjoint
  rcases Bool.and_eq_false_iff.mp h with h | h <;> rw [decide_eq_false_iff_not] at h <;> omega

theorem spansDisjoint_symm {a b : MedEntity} (h : spansDisjoint a b) :
    spansDisjoint b a := h.symm

theorem resolveStep_pairwise (norm : List MedEntity) (e : MedEntity)
    (hdisj : norm.Pairwise spansDisjoint)
    (hstart : ∀ m ∈ norm, m.start ≤ e.start) :
    (resolveStep norm e).Pairwise spansDisjoint := by
  unfold resolveStep
  cases hi : resolveInsert e norm with
  | none =>
    rw [List.pairwise_append]
    refine ⟨hdisj, List.pairwise_singleton _ _, ?_⟩
    intro m hm x hx
    rw [List.mem_singleton] at hx
    rw [hx]
    exact spansDisjoint_symm
      (not_overlap_disjoint (resolveInsert_none_spec e norm hi m hm))
  | some res =>
    obtain ⟨pre, ex, suf, hsplit, hpre, hov, hcase⟩ := resolveInsert_some_spec e norm res hi
    rcases hcase with ⟨hc, hres⟩ | ⟨hc, hres⟩
    · subst hres
      subst hsplit
      rw [List.pairwise_append] at hdisj
      obtain ⟨hdpre, hdcons, hdcross⟩ := hdisj
      rw [List.pairwise_cons] at hdcons
      obtain ⟨hexsuf, hdsuf⟩ := hdcons
      -- the new entity overlaps `ex` but is disjoint from everything else
      have heother : ∀ m ∈ pre ++ suf, spansDisjoint m e := by
        intro m hm
        rcases List.mem_append.mp hm with hm | hm
        · exact spansDisjoint_symm (not_overlap_disjoint (hpre m hm))
        · -- m ∈ suf: disjointness with ex plus start ordering forces disjointness
          have hdm : spansDisjoint ex m := hexsuf m hm
          have hovx : e.start < ex.endPos ∧ e.endPos > ex.start := by
            unfold entityOverlap at hov
            rcases Bool.and_eq_true_iff.mp hov with ⟨h1, h2⟩
            exact ⟨of_decide_eq_true h1, of_decide_eq_true h2⟩
          have hms : m.start ≤ e.start :=
            hstart m (List.mem_append_right _ (List.mem_cons_of_mem _ hm))
          have hexs : ex.start ≤ e.start :=
            hstart ex (List.mem_append_right _ (List.mem_cons_self _ _))
          unfold spansDisjoint at hdm ⊢
          omega
      have hassoc : pre ++ (suf ++ [e]) = (pre ++ suf) ++ [e] :=
        (List.append_assoc _ _ _).symm
      rw [hassoc, List.pairwise_append]
      refine ⟨?_, List.pairwise_singleton _ _, ?_⟩
      · rw [List.pairwise_append]
        refine ⟨hdpre, hdsuf, ?_⟩
        intro a ha b hb
        exact hdcross a ha b (List.mem_cons_of_mem _ hb)
      · intro m hm x hx
        rw [List.mem_singleton] at hx
        rw [hx]
        exact heother m hm
    · subst hres; exact hdisj

theorem resolve_foldl_pairwise :
    ∀ (l norm : List MedEntity),
      l.Pairwise (fun a b => a.start ≤ b.start) →
      norm.Pairwise spansDisjoint →
      (∀ m ∈ norm, ∀ x ∈ l, m.start ≤ x.start) →
      (l.foldl resolveStep norm).Pairwise spansDisjoint
  | [], norm, _, hdisj, _ => hdisj
  | e :: rest, norm, hsort, hdisj, hstart => by
    rw [List.pairwise_cons] at hsort
    obtain ⟨hhead, hrest⟩ := hsort
    rw [List.foldl_cons]
    refine resolve_foldl_pairwise rest (resolveStep norm e) hrest ?_ ?_
    · exact resolveStep_pairwise norm e hdisj
        (fun m hm => hstart m hm e (List.mem_cons_self _ _))
    · intro m hm x hx
      rcases mem_resolveStep hm with h | h
      · exact hstart m h x (List.mem_cons_of_mem _ hx)
      · subst h; exact hhead x hx

/-- **C1.** For every finite list of candidate entities (each with
`start < end`), the Entity Resolver's output contains no two entities with
overlapping spans: every pair of returned entities satisfies
`a.end ≤ b.start ∨ b.end ≤ a.start`. -/
theorem entity_resolver_output_no_overlap (entities : List MedEntity)
    (h : ∀ e ∈ entities, e.start < e.endPos) :
    (normalizeEntities entities).Pairwise spansDisjoint := by
  unfold normalizeEntities
  refine resolve_foldl_pairwise _ [] ?_ List.Pairwise.nil (by intro m hm; cases hm)
  have := @List.sorted_mergeSort MedEntity
    (fun a b : MedEntity => decide (a.start ≤ b.start))
    (fun a b c hab hbc => by
      rw [decide_eq_true_iff] at *; omega)
    (fun a b => by
      rcases Nat.le_total a.start b.start with h | h <;> simp [h])
    entities
  exact this.imp (fun {a b} hab => of_decide_eq_true hab)

/-- Witness for C1 at a concrete candidate list exercising the
replace-on-overlap path. -/
theorem entity_resolver_output_no_overlap_witness :
    (normalizeEntities
      [⟨['a'], ['L'], 0, 5, (1 : ℚ)/2, ['a']⟩,
       ⟨['b'], ['L'], 3, 8, (9 : ℚ)/10, ['b']⟩,
       ⟨['c'], ['L'], 6, 9, (3 : ℚ)/10, ['c']⟩]).Pairwise spansDisjoint :=
  entity_resolver_output_no_overlap _ (by decide)

end Medimate
